import Mathlib

/-!
Verification development for the DataBase-Change-Detector repository.

The repository is a Node.js snapshot-diff-apply synchronisation engine.
This file gives a shallow embedding of its core components:

* `src/utils/diff.js` — the row diff engine (`computeRowHash`, `computeDiff`);
* `src/services/snapshot.js` — the snapshot store (`loadSnapshot`, `saveSnapshot`);
* `src/services/database.js` — the ODBC retry loop in `connectToDatabase`;
* `src/services/sync.js` — the apply step (`syncToWebDB`) and the
  orchestrators (`syncRemoteToWeb`, `syncBetweenDatabases`);
* the overlap guard of the cron-scheduled `syncJob` in `app.js`.

JavaScript values relevant to the code's control flow are modelled by the
inductive type `JValue` (null, undefined, strings, integer numbers and
booleans); a row is an insertion-ordered list of field/value pairs, and a
JavaScript `Map` is an insertion-ordered association list whose `set`
replaces the value of an existing key in place.  Asynchronous I/O steps
(database queries, transaction control, file reads) are modelled by
explicit outcome values supplied in an environment record, and the
statements issued to a database are collected in an explicit trace.
-/

/-- A JavaScript scalar value as it appears in rows handled by the sync
engine: `null`, `undefined`, a string, an (integer) number or a boolean. -/
inductive JValue where
  | vNull
  | vUndefined
  | vStr (s : String)
  | vNum (n : Int)
  | vBool (b : Bool)
deriving DecidableEq, Repr

/-- JavaScript truthiness for `JValue`: `null`, `undefined`, the empty
string, the number `0` and `false` are falsy, everything else is truthy.
This is the test performed by `if (key)` in `computeDiff`. -/
def JValue.truthy : JValue → Bool
  | .vNull => false
  | .vUndefined => false
  | .vStr s => !(s.isEmpty)
  | .vNum n => decide (n ≠ 0)
  | .vBool b => b

/-- A row: an insertion-ordered mapping from column name to value (a
JavaScript object as produced by a database driver; keys are unique). -/
abbrev Row := List (String × JValue)

/-- Property access `row[field]`: the value stored under `field`, or
`undefined` when the row has no such field. -/
def getField (row : Row) (field : String) : JValue :=
  match row.find? (fun p => p.1 = field) with
  | some p => p.2
  | none => .vUndefined

/-- An insertion-ordered association list modelling a JavaScript `Map`
(keys are kept unique by `mapSet`). -/
abbrev JMap (α β : Type) := List (α × β)

/-- `Map.prototype.get`: the value stored under `k`, if any. -/
def mapGet? {α β : Type} [DecidableEq α] : JMap α β → α → Option β
  | [], _ => none
  | p :: rest, k => if p.1 = k then some p.2 else mapGet? rest k

/-- `Map.prototype.has`. -/
def mapHas {α β : Type} [DecidableEq α] (m : JMap α β) (k : α) : Bool :=
  (mapGet? m k).isSome

/-- `Map.prototype.set`: replaces the value of an existing key in place
(keeping its position) and otherwise appends the new entry at the end,
exactly the insertion-order semantics of a JavaScript `Map`. -/
def mapSet {α β : Type} [DecidableEq α] : JMap α β → α → β → JMap α β
  | [], k, v => [(k, v)]
  | p :: rest, k, v => if p.1 = k then (k, v) :: rest else p :: mapSet rest k v

/-- The row hash of `src/utils/diff.js` (`computeRowHash`): the md5 digest
of `JSON.stringify(row)`.  The digest is modelled by the serialised row
itself — the row list is its own canonical serialisation and md5 is
treated as collision-free, so hash equality coincides with equality of the
serialised row.  The `hashCache` memoisation table of the source is
semantically transparent and is not modelled. -/
def computeRowHash (row : Row) : Row := row

/-- One entry of the diff engine's key maps: `{ row, hash: computeRowHash(row) }`. -/
structure DiffEntry where
  row : Row
  hash : Row
deriving DecidableEq, Repr

/-- One iteration of the pre-processing loops of `computeDiff`: insert the
row under its key-field value unless that value is falsy (`if (key)`). -/
def diffStep (keyField : String) (m : JMap JValue DiffEntry) (row : Row) :
    JMap JValue DiffEntry :=
  if (getField row keyField).truthy then
    mapSet m (getField row keyField) ⟨row, computeRowHash row⟩
  else m

/-- The pre-processing loops of `computeDiff`: fold the data list into a
key map, skipping rows whose key-field value is falsy. -/
def buildKeyMap (data : List Row) (keyField : String) : JMap JValue DiffEntry :=
  data.foldl (diffStep keyField) []

/-- The result record of `computeDiff`. -/
structure DiffResult where
  inserts : List Row
  updates : List Row
  deletes : List Row
deriving DecidableEq, Repr

/-- `computeDiff(oldData, newData, keyField)` from `src/utils/diff.js`:
build the two key maps, then walk the new map emitting inserts (key absent
from old) and updates (key present with a different hash), and walk the
old map emitting deletes (key absent from new).  The source's single pass
that pushes each new-map entry into `inserts` or `updates` is rendered as
two order-preserving filters over the same entry list. -/
def computeDiff (oldData newData : List Row) (keyField : String) : DiffResult :=
  let oldMap := buildKeyMap oldData keyField
  let newMap := buildKeyMap newData keyField
  let inserts := (newMap.filter (fun p => !(mapHas oldMap p.1))).map (fun p => p.2.row)
  let updates := (newMap.filter (fun p =>
      match mapGet? oldMap p.1 with
      | some o => !(decide (p.2.hash = o.hash))
      | none => false)).map (fun p => p.2.row)
  let deletes := (oldMap.filter (fun p => !(mapHas newMap p.1))).map (fun p => p.2.row)
  { inserts := inserts, updates := updates, deletes := deletes }

/-- The key values of a list of rows under a key field, in list order. -/
def rowKeys (data : List Row) (keyField : String) : List JValue :=
  data.map (fun r => getField r keyField)

section MapLemmas

variable {α β : Type} [DecidableEq α]

@[simp]
theorem mapGet?_nil (k : α) : mapGet? ([] : JMap α β) k = none := rfl

theorem mapGet?_cons (p : α × β) (m : JMap α β) (k : α) :
    mapGet? (p :: m) k = if p.1 = k then some p.2 else mapGet? m k := rfl

@[simp]
theorem mapGet?_set_self (m : JMap α β) (k : α) (v : β) :
    mapGet? (mapSet m k v) k = some v := by
  induction m with
  | nil => simp [mapSet, mapGet?]
  | cons p rest ih =>
    by_cases h : p.1 = k
    · simp [mapSet, h, mapGet?]
    · simp [mapSet, h, mapGet?, ih]

theorem mapGet?_set_ne (m : JMap α β) (k' k : α) (v : β) (h : k' ≠ k) :
    mapGet? (mapSet m k' v) k = mapGet? m k := by
  induction m with
  | nil => simp [mapSet, mapGet?, h]
  | cons p rest ih =>
    by_cases hp : p.1 = k'
    · simp [mapSet, hp, mapGet?, h]
    · simp only [mapSet, hp, if_false, mapGet?_cons, ih]

theorem mem_mapSet {m : JMap α β} {k : α} {v : β} {p : α × β}
    (h : p ∈ mapSet m k v) : p = (k, v) ∨ p ∈ m := by
  induction m with
  | nil => simpa [mapSet] using h
  | cons q rest ih =>
    by_cases hq : q.1 = k
    · simp only [mapSet, hq, if_true, List.mem_cons] at h
      rcases h with h | h
      · exact Or.inl h
      · exact Or.inr (List.mem_cons_of_mem _ h)
    · simp only [mapSet, hq, if_false, List.mem_cons] at h
      rcases h with h | h
      · exact Or.inr (by simp [h])
      · rcases ih h with h' | h'
        · exact Or.inl h'
        · exact Or.inr (List.mem_cons_of_mem _ h')

end MapLemmas

section MapLemmas2

variable {α β : Type} [DecidableEq α]

theorem mapHas_cons (p : α × β) (m : JMap α β) (k : α) :
    mapHas (p :: m) k = if p.1 = k then true else mapHas m k := by
  by_cases h : p.1 = k <;> simp [mapHas, mapGet?_cons, h]

theorem mapHas_iff_mem_keys (m : JMap α β) (k : α) :
    mapHas m k = true ↔ k ∈ m.map Prod.fst := by
  induction m with
  | nil => simp [mapHas, mapGet?]
  | cons p rest ih =>
    by_cases h : p.1 = k
    · simp [mapHas_cons, h]
    · have h' : ¬ k = p.1 := fun hk => h hk.symm
      simp [mapHas_cons, h, h', ih]

theorem mapGet?_append (m m' : JMap α β) (k : α) :
    mapGet? (m ++ m') k =
      match mapGet? m k with
      | some v => some v
      | none => mapGet? m' k := by
  induction m with
  | nil => simp [mapGet?]
  | cons p rest ih =>
    by_cases h : p.1 = k <;> simp [mapGet?_cons, h, ih]

theorem mapSet_of_not_has (m : JMap α β) (k : α) (v : β) (h : mapHas m k = false) :
    mapSet m k v = m ++ [(k, v)] := by
  induction m with
  | nil => simp [mapSet]
  | cons p rest ih =>
    rw [mapHas_cons] at h
    by_cases hp : p.1 = k
    · simp [hp] at h
    · simp only [hp, if_false] at h
      simp [mapSet, hp, ih h]

theorem mapSet_keys (m : JMap α β) (k : α) (v : β) :
    (mapSet m k v).map Prod.fst =
      if mapHas m k then m.map Prod.fst else m.map Prod.fst ++ [k] := by
  induction m with
  | nil => simp [mapSet, mapHas, mapGet?]
  | cons p rest ih =>
    rw [mapHas_cons]
    by_cases hp : p.1 = k
    · simp [mapSet, hp]
    · by_cases hr : mapHas rest k <;> simp [mapSet, hp, hr, ih]

theorem mapSet_keys_nodup {m : JMap α β} (k : α) (v : β)
    (h : (m.map Prod.fst).Nodup) : ((mapSet m k v).map Prod.fst).Nodup := by
  rw [mapSet_keys]
  by_cases hk : mapHas m k
  · simpa [hk] using h
  · have hk' : k ∉ m.map Prod.fst := by
      intro hmem
      rw [← mapHas_iff_mem_keys] at hmem
      simp [hk] at hmem
    have hk2 : mapHas m k = false := by
      cases hmk : mapHas m k
      · rfl
      · exact absurd hmk hk
    rw [hk2]
    simp only [Bool.false_eq_true, if_false]
    rw [List.nodup_append]
    refine ⟨h, List.nodup_singleton k, ?_⟩
    intro a ha hb
    have : a = k := by simpa using hb
    exact hk' (this ▸ ha)

theorem mapGet?_eq_of_mem {m : JMap α β} (hnd : (m.map Prod.fst).Nodup)
    {p : α × β} (hp : p ∈ m) : mapGet? m p.1 = some p.2 := by
  induction m with
  | nil => simp at hp
  | cons q rest ih =>
    rcases List.mem_cons.mp hp with h | h
    · subst h; simp [mapGet?_cons]
    · by_cases hq : q.1 = p.1
      · exfalso
        have : p.1 ∈ rest.map Prod.fst := List.mem_map_of_mem Prod.fst h
        rw [List.map_cons, List.nodup_cons] at hnd
        exact hnd.1 (hq ▸ this)
      · rw [List.map_cons, List.nodup_cons] at hnd
        simp only [mapGet?_cons, hq, if_false]
        exact ih hnd.2 h

theorem mem_of_mapGet? {m : JMap α β} {k : α} {v : β}
    (h : mapGet? m k = some v) : (k, v) ∈ m := by
  induction m with
  | nil => simp [mapGet?] at h
  | cons q rest ih =>
    by_cases hq : q.1 = k
    · rw [mapGet?_cons, if_pos hq] at h
      have : (k, v) = q := by
        cases q
        simp_all
      simp [this]
    · rw [mapGet?_cons, if_neg hq] at h
      exact List.mem_cons_of_mem _ (ih h)

end MapLemmas2

/-- Does the row's key-field value match `k` and pass the truthiness test
of the pre-processing loop? -/
def keyMatches (keyField : String) (k : JValue) (r : Row) : Bool :=
  (getField r keyField).truthy && decide (getField r keyField = k)

/-- The last row of `data` whose (truthy) key-field value is `k` — the row
that a JavaScript `Map` built by repeated `set` ends up holding for `k`. -/
def lastKeyed (data : List Row) (keyField : String) (k : JValue) : Option Row :=
  (data.filter (keyMatches keyField k)).getLast?

theorem getLast?_cons_of_getLast? {γ : Type} {l : List γ} {x a : γ}
    (h : l.getLast? = some x) : (a :: l).getLast? = some x := by
  cases l with
  | nil => simp at h
  | cons b t => rw [List.getLast?_cons_cons]; exact h

/-- Folding `diffStep` over a data list: the resulting binding of each key
`k` is the last row of the data list keyed by `k`, falling back to the
initial map when no row is keyed by `k`. -/
theorem foldl_diffStep_get (data : List Row) (keyField : String)
    (m : JMap JValue DiffEntry) (k : JValue) :
    mapGet? (data.foldl (diffStep keyField) m) k =
      match lastKeyed data keyField k with
      | some r => some ⟨r, computeRowHash r⟩
      | none => mapGet? m k := by
  induction data generalizing m with
  | nil => simp [lastKeyed]
  | cons r rest ih =>
    rw [List.foldl_cons, ih]
    cases hrest : lastKeyed rest keyField k with
    | some r' =>
      have hcons : lastKeyed (r :: rest) keyField k = some r' := by
        unfold lastKeyed at hrest ⊢
        rw [List.filter_cons]
        by_cases hc : keyMatches keyField k r
        · rw [if_pos hc]
          exact getLast?_cons_of_getLast? hrest
        · rw [if_neg hc]
          exact hrest
      rw [hcons]
    | none =>
      have hemp : rest.filter (keyMatches keyField k) = [] := by
        unfold lastKeyed at hrest
        exact List.getLast?_eq_none_iff.mp hrest
      unfold lastKeyed
      rw [List.filter_cons, hemp]
      by_cases hc : keyMatches keyField k r
      · rw [if_pos hc]
        have hc' := hc
        unfold keyMatches at hc'
        rw [Bool.and_eq_true] at hc'
        have ht : (getField r keyField).truthy = true := hc'.1
        have hk : getField r keyField = k := of_decide_eq_true hc'.2
        simp only [List.getLast?_singleton]
        unfold diffStep
        rw [if_pos ht, hk, mapGet?_set_self]
      · rw [if_neg hc]
        simp only [List.getLast?_nil]
        unfold diffStep
        by_cases ht : (getField r keyField).truthy
        · rw [if_pos ht]
          have hne : getField r keyField ≠ k := by
            intro hk
            exact hc (by unfold keyMatches; rw [Bool.and_eq_true]; exact ⟨ht, decide_eq_true hk⟩)
          exact mapGet?_set_ne _ _ _ _ hne
        · rw [if_neg ht]

/-- Every entry of a `diffStep` fold is well-formed: its key is the stored
row's truthy key-field value, its hash is the row's hash, and the row
comes from the data list (or from the initial map). -/
theorem foldl_diffStep_wf (data : List Row) (keyField : String) (S : List Row)
    (hS : ∀ r ∈ data, r ∈ S) (m : JMap JValue DiffEntry)
    (hm : ∀ p ∈ m, getField p.2.row keyField = p.1 ∧ (p.1).truthy = true ∧
          p.2.hash = computeRowHash p.2.row ∧ p.2.row ∈ S) :
    ∀ p ∈ data.foldl (diffStep keyField) m,
      getField p.2.row keyField = p.1 ∧ (p.1).truthy = true ∧
      p.2.hash = computeRowHash p.2.row ∧ p.2.row ∈ S := by
  induction data generalizing m with
  | nil => simpa using hm
  | cons r rest ih =>
    intro p hp
    rw [List.foldl_cons] at hp
    refine ih (fun r' hr' => hS r' (List.mem_cons_of_mem _ hr')) (diffStep keyField m r)
      ?_ p hp
    intro q hq
    unfold diffStep at hq
    by_cases ht : (getField r keyField).truthy
    · rw [if_pos ht] at hq
      rcases mem_mapSet hq with h | h
      · subst h
        exact ⟨rfl, ht, rfl, hS r (List.mem_cons_self _ _)⟩
      · exact hm q h
    · rw [if_neg ht] at hq
      exact hm q hq

/-- A `diffStep` fold keeps the map's keys duplicate-free. -/
theorem foldl_diffStep_nodupKeys (data : List Row) (keyField : String)
    (m : JMap JValue DiffEntry) (hm : (m.map Prod.fst).Nodup) :
    ((data.foldl (diffStep keyField) m).map Prod.fst).Nodup := by
  induction data generalizing m with
  | nil => simpa using hm
  | cons r rest ih =>
    rw [List.foldl_cons]
    apply ih
    unfold diffStep
    by_cases ht : (getField r keyField).truthy
    · rw [if_pos ht]
      exact mapSet_keys_nodup _ _ hm
    · rw [if_neg ht]
      exact hm

theorem mapHas_false_iff {α β : Type} [DecidableEq α] (m : JMap α β) (k : α) :
    mapHas m k = false ↔ mapGet? m k = none := by
  unfold mapHas
  cases mapGet? m k <;> simp

/-- When every row's key is truthy, the keys are duplicate-free and the
initial map is disjoint from them, the `diffStep` fold is the literal
association list of the data. -/
theorem foldl_diffStep_eq (data : List Row) (keyField : String)
    (m : JMap JValue DiffEntry)
    (ht : ∀ r ∈ data, (getField r keyField).truthy = true)
    (hnd : (rowKeys data keyField).Nodup)
    (hdisj : ∀ r ∈ data, mapHas m (getField r keyField) = false) :
    data.foldl (diffStep keyField) m =
      m ++ data.map (fun r => (getField r keyField, DiffEntry.mk r (computeRowHash r))) := by
  induction data generalizing m with
  | nil => simp
  | cons r rest ih =>
    rw [List.foldl_cons]
    have hstep : diffStep keyField m r =
        m ++ [(getField r keyField, DiffEntry.mk r (computeRowHash r))] := by
      unfold diffStep
      rw [if_pos (ht r (List.mem_cons_self _ _))]
      exact mapSet_of_not_has _ _ _ (hdisj r (List.mem_cons_self _ _))
    have hkey : getField r keyField ∉ rowKeys rest keyField := by
      unfold rowKeys at hnd
      rw [List.map_cons, List.nodup_cons] at hnd
      exact hnd.1
    rw [hstep, ih _
      (fun r' hr' => ht r' (List.mem_cons_of_mem _ hr'))
      (by unfold rowKeys at hnd ⊢; rw [List.map_cons, List.nodup_cons] at hnd; exact hnd.2)
      ?_]
    · rw [List.map_cons, List.append_assoc]
      rfl
    · intro r' hr'
      rw [mapHas_false_iff, mapGet?_append]
      have h1 : mapGet? m (getField r' keyField) = none :=
        (mapHas_false_iff _ _).mp (hdisj r' (List.mem_cons_of_mem _ hr'))
      rw [h1]
      have hne : getField r keyField ≠ getField r' keyField := by
        intro he
        exact hkey (he ▸ List.mem_map_of_mem (fun r0 => getField r0 keyField) hr')
      simp [mapGet?_cons, hne]

/-- `mapGet?` on a literal key/entry list is `find?` on the underlying rows. -/
theorem mapGet?_keyList (data : List Row) (keyField : String) (k : JValue) :
    mapGet? (data.map (fun r => (getField r keyField, DiffEntry.mk r (computeRowHash r)))) k =
      (data.find? (fun r => decide (getField r keyField = k))).map
        (fun r => DiffEntry.mk r (computeRowHash r)) := by
  induction data with
  | nil => rfl
  | cons r rest ih =>
    rw [List.map_cons, mapGet?_cons, List.find?_cons]
    by_cases h : getField r keyField = k
    · simp [h]
    · simp [h, ih]

theorem computeDiff_inserts (old nw : List Row) (kf : String) :
    (computeDiff old nw kf).inserts =
      ((buildKeyMap nw kf).filter (fun p => !(mapHas (buildKeyMap old kf) p.1))).map
        (fun p => p.2.row) := rfl

theorem computeDiff_updates (old nw : List Row) (kf : String) :
    (computeDiff old nw kf).updates =
      ((buildKeyMap nw kf).filter (fun p =>
        match mapGet? (buildKeyMap old kf) p.1 with
        | some o => !(decide (p.2.hash = o.hash))
        | none => false)).map (fun p => p.2.row) := rfl

theorem computeDiff_deletes (old nw : List Row) (kf : String) :
    (computeDiff old nw kf).deletes =
      ((buildKeyMap old kf).filter (fun p => !(mapHas (buildKeyMap nw kf) p.1))).map
        (fun p => p.2.row) := rfl

/-- Under truthy, duplicate-free keys the key map is the literal
association list of the data. -/
theorem buildKeyMap_eq (data : List Row) (keyField : String)
    (ht : ∀ r ∈ data, (getField r keyField).truthy = true)
    (hnd : (rowKeys data keyField).Nodup) :
    buildKeyMap data keyField =
      data.map (fun r => (getField r keyField, DiffEntry.mk r (computeRowHash r))) := by
  unfold buildKeyMap
  rw [foldl_diffStep_eq data keyField [] ht hnd (fun r _ => rfl)]
  simp

theorem mapHas_keyList (data : List Row) (keyField : String) (k : JValue) :
    mapHas (data.map (fun r => (getField r keyField, DiffEntry.mk r (computeRowHash r)))) k =
      (data.find? (fun r => decide (getField r keyField = k))).isSome := by
  unfold mapHas
  rw [mapGet?_keyList]
  cases data.find? (fun r => decide (getField r keyField = k)) <;> rfl

/-- Under truthy, duplicate-free keys on both sides, the inserts are the
new rows whose key does not occur in the old rows. -/
theorem computeDiff_inserts_eq (old nw : List Row) (kf : String)
    (hot : ∀ r ∈ old, (getField r kf).truthy = true) (hou : (rowKeys old kf).Nodup)
    (hnt : ∀ r ∈ nw, (getField r kf).truthy = true) (hnu : (rowKeys nw kf).Nodup) :
    (computeDiff old nw kf).inserts =
      nw.filter (fun r =>
        !((old.find? (fun ro => decide (getField ro kf = getField r kf))).isSome)) := by
  rw [computeDiff_inserts, buildKeyMap_eq old kf hot hou, buildKeyMap_eq nw kf hnt hnu,
    List.filter_map, List.map_map]
  simp only [Function.comp_def]
  rw [List.map_id']
  refine List.filter_congr ?_
  intro r _
  rw [mapHas_keyList]

/-- Under truthy, duplicate-free keys on both sides, the deletes are the
old rows whose key does not occur in the new rows. -/
theorem computeDiff_deletes_eq (old nw : List Row) (kf : String)
    (hot : ∀ r ∈ old, (getField r kf).truthy = true) (hou : (rowKeys old kf).Nodup)
    (hnt : ∀ r ∈ nw, (getField r kf).truthy = true) (hnu : (rowKeys nw kf).Nodup) :
    (computeDiff old nw kf).deletes =
      old.filter (fun r =>
        !((nw.find? (fun rn => decide (getField rn kf = getField r kf))).isSome)) := by
  rw [computeDiff_deletes, buildKeyMap_eq old kf hot hou, buildKeyMap_eq nw kf hnt hnu,
    List.filter_map, List.map_map]
  simp only [Function.comp_def]
  rw [List.map_id']
  refine List.filter_congr ?_
  intro r _
  rw [mapHas_keyList]

/-- Under truthy, duplicate-free keys on both sides, the updates are the
new rows whose key occurs in the old rows with a different row hash. -/
theorem computeDiff_updates_eq (old nw : List Row) (kf : String)
    (hot : ∀ r ∈ old, (getField r kf).truthy = true) (hou : (rowKeys old kf).Nodup)
    (hnt : ∀ r ∈ nw, (getField r kf).truthy = true) (hnu : (rowKeys nw kf).Nodup) :
    (computeDiff old nw kf).updates =
      nw.filter (fun r =>
        match old.find? (fun ro => decide (getField ro kf = getField r kf)) with
        | some ro => !(decide (computeRowHash r = computeRowHash ro))
        | none => false) := by
  rw [computeDiff_updates, buildKeyMap_eq old kf hot hou, buildKeyMap_eq nw kf hnt hnu,
    List.filter_map, List.map_map]
  simp only [Function.comp_def]
  rw [List.map_id']
  refine List.filter_congr ?_
  intro r _
  rw [mapGet?_keyList]
  cases old.find? (fun ro => decide (getField ro kf = getField r kf)) <;> rfl

theorem mem_rowKeys (data : List Row) (kf : String) (k : JValue) :
    k ∈ rowKeys data kf ↔ ∃ r ∈ data, getField r kf = k := by
  unfold rowKeys
  simp

theorem mem_rowKeys_filter (data : List Row) (c : Row → Bool) (kf : String) (k : JValue) :
    k ∈ rowKeys (data.filter c) kf ↔ ∃ r ∈ data, c r = true ∧ getField r kf = k := by
  unfold rowKeys
  simp [List.mem_filter]
  tauto

theorem findKey_isSome_iff (data : List Row) (kf : String) (k : JValue) :
    (data.find? (fun r => decide (getField r kf = k))).isSome = true ↔
      k ∈ rowKeys data kf := by
  rw [List.find?_isSome]
  unfold rowKeys
  simp

/-- All rows of `data` carry a truthy key-field value and those values are
pairwise distinct. -/
def uniqueTruthyKeys (data : List Row) (keyField : String) : Prop :=
  (∀ r ∈ data, (getField r keyField).truthy = true) ∧ (rowKeys data keyField).Nodup

/-- All rows of `data` carry a key-field value that is neither `null` nor
`undefined`, and those values are pairwise distinct (the hypothesis of the
claim as stated in the spec). -/
def uniqueNonNullKeys (data : List Row) (keyField : String) : Prop :=
  (∀ r ∈ data, getField r keyField ≠ JValue.vNull ∧ getField r keyField ≠ JValue.vUndefined) ∧
  (rowKeys data keyField).Nodup

instance (data : List Row) (keyField : String) : Decidable (uniqueTruthyKeys data keyField) := by
  unfold uniqueTruthyKeys
  infer_instance

instance (data : List Row) (keyField : String) : Decidable (uniqueNonNullKeys data keyField) := by
  unfold uniqueNonNullKeys
  infer_instance

/-- Row `{code:"A",name:"X"}` of the spec's end-to-end example. -/
def exRowA : Row := [("code", JValue.vStr "A"), ("name", JValue.vStr "X")]

/-- Row `{code:"B",name:"Y"}` of the spec's end-to-end example. -/
def exRowB : Row := [("code", JValue.vStr "B"), ("name", JValue.vStr "Y")]

/-- Row `{code:"A",name:"X2"}` of the spec's end-to-end example. -/
def exRowA2 : Row := [("code", JValue.vStr "A"), ("name", JValue.vStr "X2")]

/-- Row `{code:"C",name:"Z"}` of the spec's end-to-end example. -/
def exRowC : Row := [("code", JValue.vStr "C"), ("name", JValue.vStr "Z")]

/-- The old table of the spec's end-to-end example. -/
def exOldTable : List Row := [exRowA, exRowB]

/-- The new table of the spec's end-to-end example. -/
def exNewTable : List Row := [exRowA2, exRowC]

/-- C3 (amended): for old/new row lists with unique truthy keys under key
field `kf`, `computeDiff` returns inserts whose keys are exactly
keys(new) minus keys(old), deletes whose keys are exactly keys(old) minus
keys(new), updates whose keys are exactly the keys present in both whose
row hashes differ; the three outputs are pairwise key-disjoint; and the
spec's concrete example evaluates to exactly the stated diff. -/
theorem computeDiff_completeness (old nw : List Row) (kf : String)
    (hold : uniqueTruthyKeys old kf) (hnew : uniqueTruthyKeys nw kf) :
    (∀ k, k ∈ rowKeys (computeDiff old nw kf).inserts kf ↔
       (k ∈ rowKeys nw kf ∧ k ∉ rowKeys old kf)) ∧
    (∀ k, k ∈ rowKeys (computeDiff old nw kf).deletes kf ↔
       (k ∈ rowKeys old kf ∧ k ∉ rowKeys nw kf)) ∧
    (∀ k, k ∈ rowKeys (computeDiff old nw kf).updates kf ↔
       (∃ ro ∈ old, ∃ rn ∈ nw, getField ro kf = k ∧ getField rn kf = k ∧
         computeRowHash ro ≠ computeRowHash rn)) ∧
    (∀ k, ¬(k ∈ rowKeys (computeDiff old nw kf).inserts kf ∧
            k ∈ rowKeys (computeDiff old nw kf).updates kf) ∧
          ¬(k ∈ rowKeys (computeDiff old nw kf).inserts kf ∧
            k ∈ rowKeys (computeDiff old nw kf).deletes kf) ∧
          ¬(k ∈ rowKeys (computeDiff old nw kf).updates kf ∧
            k ∈ rowKeys (computeDiff old nw kf).deletes kf)) ∧
    computeDiff exOldTable exNewTable "code" =
      { inserts := [exRowC], updates := [exRowA2], deletes := [exRowB] } := by
  obtain ⟨hot, hou⟩ := hold
  obtain ⟨hnt, hnu⟩ := hnew
  have hIns : ∀ k, k ∈ rowKeys (computeDiff old nw kf).inserts kf ↔
      (k ∈ rowKeys nw kf ∧ k ∉ rowKeys old kf) := by
    intro k
    rw [computeDiff_inserts_eq old nw kf hot hou hnt hnu, mem_rowKeys_filter]
    constructor
    · rintro ⟨r, hr, hc, hk⟩
      subst hk
      refine ⟨(mem_rowKeys _ _ _).mpr ⟨r, hr, rfl⟩, ?_⟩
      intro hmem
      rw [← findKey_isSome_iff] at hmem
      rw [Bool.not_eq_true'] at hc
      rw [hmem] at hc
      simp at hc
    · rintro ⟨hin, hout⟩
      obtain ⟨r, hr, hk⟩ := (mem_rowKeys _ _ _).mp hin
      refine ⟨r, hr, ?_, hk⟩
      rw [Bool.not_eq_true', hk]
      cases hi : (old.find? (fun ro => decide (getField ro kf = k))).isSome
      · rfl
      · exact absurd ((findKey_isSome_iff _ _ _).mp hi) hout
  have hDel : ∀ k, k ∈ rowKeys (computeDiff old nw kf).deletes kf ↔
      (k ∈ rowKeys old kf ∧ k ∉ rowKeys nw kf) := by
    intro k
    rw [computeDiff_deletes_eq old nw kf hot hou hnt hnu, mem_rowKeys_filter]
    constructor
    · rintro ⟨r, hr, hc, hk⟩
      subst hk
      refine ⟨(mem_rowKeys _ _ _).mpr ⟨r, hr, rfl⟩, ?_⟩
      intro hmem
      rw [← findKey_isSome_iff] at hmem
      rw [Bool.not_eq_true'] at hc
      rw [hmem] at hc
      simp at hc
    · rintro ⟨hin, hout⟩
      obtain ⟨r, hr, hk⟩ := (mem_rowKeys _ _ _).mp hin
      refine ⟨r, hr, ?_, hk⟩
      rw [Bool.not_eq_true', hk]
      cases hi : (nw.find? (fun rn => decide (getField rn kf = k))).isSome
      · rfl
      · exact absurd ((findKey_isSome_iff _ _ _).mp hi) hout
  have hUpd : ∀ k, k ∈ rowKeys (computeDiff old nw kf).updates kf ↔
      (∃ ro ∈ old, ∃ rn ∈ nw, getField ro kf = k ∧ getField rn kf = k ∧
        computeRowHash ro ≠ computeRowHash rn) := by
    intro k
    rw [computeDiff_updates_eq old nw kf hot hou hnt hnu, mem_rowKeys_filter]
    constructor
    · rintro ⟨rn, hrn, hc, hk⟩
      subst hk
      cases hf : old.find? (fun ro => decide (getField ro kf = getField rn kf)) with
      | none => rw [hf] at hc; exact absurd hc (by simp)
      | some ro =>
        rw [hf] at hc
        have hp := List.find?_some hf
        simp only [decide_eq_true_eq] at hp
        have hkro : getField ro kf = getField rn kf := hp
        have hro : ro ∈ old := List.mem_of_find?_eq_some hf
        have hne : computeRowHash rn ≠ computeRowHash ro := by
          rw [Bool.not_eq_true'] at hc
          exact of_decide_eq_false hc
        exact ⟨ro, hro, rn, hrn, hkro, rfl, fun h => hne h.symm⟩
    · rintro ⟨ro, hro, rn, hrn, hkro, hkrn, hne⟩
      refine ⟨rn, hrn, ?_, hkrn⟩
      have hsome : (old.find? (fun x => decide (getField x kf = getField rn kf))).isSome = true := by
        rw [hkrn, findKey_isSome_iff]
        exact (mem_rowKeys _ _ _).mpr ⟨ro, hro, hkro⟩
      obtain ⟨ro', hf⟩ := Option.isSome_iff_exists.mp hsome
      rw [hf]
      have hro' : ro' ∈ old := List.mem_of_find?_eq_some hf
      have hp' := List.find?_some hf
      simp only [decide_eq_true_eq] at hp'
      have hkro' : getField ro' kf = getField rn kf := hp'
      have : ro' = ro := by
        refine List.inj_on_of_nodup_map hou hro' hro ?_
        rw [hkro', hkrn, hkro]
      subst this
      rw [Bool.not_eq_true']
      exact decide_eq_false (fun h => hne (by rw [← h]))
  refine ⟨hIns, hDel, hUpd, ?_, by decide⟩
  intro k
  refine ⟨?_, ?_, ?_⟩
  · rintro ⟨hi, hu⟩
    obtain ⟨-, hnotold⟩ := (hIns k).mp hi
    obtain ⟨ro, hro, -, -, hkro, -⟩ := (hUpd k).mp hu
    exact hnotold ((mem_rowKeys _ _ _).mpr ⟨ro, hro, hkro⟩)
  · rintro ⟨hi, hd⟩
    obtain ⟨-, hnotold⟩ := (hIns k).mp hi
    obtain ⟨hinold, -⟩ := (hDel k).mp hd
    exact hnotold hinold
  · rintro ⟨hu, hd⟩
    obtain ⟨-, -, rn, hrn, -, hkrn, -⟩ := (hUpd k).mp hu
    obtain ⟨-, hnotnew⟩ := (hDel k).mp hd
    exact hnotnew ((mem_rowKeys _ _ _).mpr ⟨rn, hrn, hkrn⟩)

/-- C3 counterexample: with the hypothesis as stated (unique non-null
keys), completeness fails.  The single new row keyed by the number `0`
has a unique key that is neither `null` nor `undefined`, and `0` is in
keys(new) minus keys(old), yet `computeDiff` returns no inserts at all,
because `if (key)` drops every falsy key, not only null/undefined ones. -/
theorem computeDiff_completeness_counterexample :
    uniqueNonNullKeys [] "code" ∧
    uniqueNonNullKeys [[("code", JValue.vNum 0)]] "code" ∧
    JValue.vNum 0 ∈ rowKeys [[("code", JValue.vNum 0)]] "code" ∧
    JValue.vNum 0 ∉ rowKeys [] "code" ∧
    (computeDiff [] [[("code", JValue.vNum 0)]] "code").inserts = [] := by
  decide

/-- C3 witness: the amended completeness theorem applied to the spec's
concrete example tables. -/
theorem computeDiff_completeness_witness :
    uniqueTruthyKeys exOldTable "code" ∧ uniqueTruthyKeys exNewTable "code" ∧
    ((∀ k, k ∈ rowKeys (computeDiff exOldTable exNewTable "code").inserts "code" ↔
       (k ∈ rowKeys exNewTable "code" ∧ k ∉ rowKeys exOldTable "code")) ∧
     (∀ k, k ∈ rowKeys (computeDiff exOldTable exNewTable "code").deletes "code" ↔
       (k ∈ rowKeys exOldTable "code" ∧ k ∉ rowKeys exNewTable "code")) ∧
     (∀ k, k ∈ rowKeys (computeDiff exOldTable exNewTable "code").updates "code" ↔
       (∃ ro ∈ exOldTable, ∃ rn ∈ exNewTable, getField ro "code" = k ∧ getField rn "code" = k ∧
         computeRowHash ro ≠ computeRowHash rn)) ∧
     (∀ k, ¬(k ∈ rowKeys (computeDiff exOldTable exNewTable "code").inserts "code" ∧
             k ∈ rowKeys (computeDiff exOldTable exNewTable "code").updates "code") ∧
           ¬(k ∈ rowKeys (computeDiff exOldTable exNewTable "code").inserts "code" ∧
             k ∈ rowKeys (computeDiff exOldTable exNewTable "code").deletes "code") ∧
           ¬(k ∈ rowKeys (computeDiff exOldTable exNewTable "code").updates "code" ∧
             k ∈ rowKeys (computeDiff exOldTable exNewTable "code").deletes "code")) ∧
     computeDiff exOldTable exNewTable "code" =
       { inserts := [exRowC], updates := [exRowA2], deletes := [exRowB] }) :=
  ⟨by decide, by decide,
    computeDiff_completeness exOldTable exNewTable "code" (by decide) (by decide)⟩

/-- The entries of a key map are well-formed: key equals the stored row's
key-field value, the key is truthy, the hash is the row's hash, and the
row comes from the data list. -/
theorem buildKeyMap_wf (data : List Row) (kf : String) :
    ∀ p ∈ buildKeyMap data kf, getField p.2.row kf = p.1 ∧ (p.1).truthy = true ∧
      p.2.hash = computeRowHash p.2.row ∧ p.2.row ∈ data :=
  foldl_diffStep_wf data kf data (fun _ h => h) [] (by simp)

/-- A row with a truthy key always has a binding in the key map. -/
theorem buildKeyMap_has_of_truthy (data : List Row) (kf : String) (r : Row)
    (hr : r ∈ data) (ht : (getField r kf).truthy = true) :
    mapHas (buildKeyMap data kf) (getField r kf) = true := by
  have hmem : r ∈ data.filter (keyMatches kf (getField r kf)) := by
    rw [List.mem_filter]
    refine ⟨hr, ?_⟩
    unfold keyMatches
    rw [Bool.and_eq_true]
    exact ⟨ht, decide_eq_true rfl⟩
  have hne : data.filter (keyMatches kf (getField r kf)) ≠ [] :=
    List.ne_nil_of_mem hmem
  unfold mapHas
  unfold buildKeyMap
  rw [foldl_diffStep_get data kf [] (getField r kf)]
  cases hlast : lastKeyed data kf (getField r kf) with
  | none =>
    unfold lastKeyed at hlast
    exact absurd (List.getLast?_eq_none_iff.mp hlast) hne
  | some r' => rfl

/-- Every row emitted by `computeDiff` is stored in one of the two key
maps, hence has a truthy key-field value. -/
theorem computeDiff_output_truthy (old nw : List Row) (kf : String) :
    ∀ r, (r ∈ (computeDiff old nw kf).inserts ∨ r ∈ (computeDiff old nw kf).updates ∨
          r ∈ (computeDiff old nw kf).deletes) → (getField r kf).truthy = true := by
  intro r hr
  rcases hr with h | h | h
  · rw [computeDiff_inserts] at h
    obtain ⟨p, hp, hpr⟩ := List.mem_map.mp h
    obtain ⟨hkey, htr, -, -⟩ := buildKeyMap_wf nw kf p (List.mem_of_mem_filter hp)
    rw [← hpr, hkey]
    exact htr
  · rw [computeDiff_updates] at h
    obtain ⟨p, hp, hpr⟩ := List.mem_map.mp h
    obtain ⟨hkey, htr, -, -⟩ := buildKeyMap_wf nw kf p (List.mem_of_mem_filter hp)
    rw [← hpr, hkey]
    exact htr
  · rw [computeDiff_deletes] at h
    obtain ⟨p, hp, hpr⟩ := List.mem_map.mp h
    obtain ⟨hkey, htr, -, -⟩ := buildKeyMap_wf old kf p (List.mem_of_mem_filter hp)
    rw [← hpr, hkey]
    exact htr

/-- C4 (amended): `computeDiff` excludes from its key mappings exactly the
rows whose key-field value is falsy (`undefined`, `null`, `false`, `0` or
the empty string): a row with a truthy key always obtains a binding, every
binding's key is truthy, and a row with a falsy key is never emitted in
the inserts, updates or deletes (every emitted row has a truthy key). -/
theorem computeDiff_falsy_key_exclusion (old nw data : List Row) (kf : String) :
    (∀ r ∈ data, (getField r kf).truthy = true →
       mapHas (buildKeyMap data kf) (getField r kf) = true) ∧
    (∀ p ∈ buildKeyMap data kf, (p.1).truthy = true) ∧
    (∀ r, (r ∈ (computeDiff old nw kf).inserts ∨ r ∈ (computeDiff old nw kf).updates ∨
           r ∈ (computeDiff old nw kf).deletes) → (getField r kf).truthy = true) :=
  ⟨fun r hr ht => buildKeyMap_has_of_truthy data kf r hr ht,
   fun p hp => (buildKeyMap_wf data kf p hp).2.1,
   computeDiff_output_truthy old nw kf⟩

/-- C4 counterexample: the claim as stated says a row keyed by `0` (a
value that is neither `null` nor `undefined`) participates in the diff;
in fact `computeDiff` drops it entirely — diffing it against an empty old
list produces no insert. -/
theorem computeDiff_falsy_key_counterexample :
    getField [("code", JValue.vNum 0)] "code" = JValue.vNum 0 ∧
    getField [("code", JValue.vNum 0)] "code" ≠ JValue.vNull ∧
    getField [("code", JValue.vNum 0)] "code" ≠ JValue.vUndefined ∧
    computeDiff [] [[("code", JValue.vNum 0)]] "code" =
      { inserts := [], updates := [], deletes := [] } ∧
    buildKeyMap [[("code", JValue.vNum 0)]] "code" = [] := by
  decide

/-- C4 witness: the amended exclusion theorem applied at a concrete table. -/
theorem computeDiff_falsy_key_witness :
    mapHas (buildKeyMap exOldTable "code") (getField exRowA "code") = true :=
  (computeDiff_falsy_key_exclusion [] [] exOldTable "code").1 exRowA (by decide) (by decide)

/-- The key maps of `computeDiff` have duplicate-free keys. -/
theorem buildKeyMap_nodupKeys (data : List Row) (kf : String) :
    ((buildKeyMap data kf).map Prod.fst).Nodup :=
  foldl_diffStep_nodupKeys data kf [] (by simp)

/-- The binding of a key in a key map is the last data row carrying that
(truthy) key, together with that row's hash. -/
theorem buildKeyMap_get_lastKeyed (data : List Row) (kf : String) (k : JValue)
    (e : DiffEntry) (h : mapGet? (buildKeyMap data kf) k = some e) :
    lastKeyed data kf k = some e.row ∧ e.hash = computeRowHash e.row := by
  unfold buildKeyMap at h
  rw [foldl_diffStep_get data kf [] k] at h
  cases hlast : lastKeyed data kf k with
  | none => rw [hlast] at h; simp at h
  | some r =>
    rw [hlast] at h
    have he : e = DiffEntry.mk r (computeRowHash r) := by
      injection h with h'
      exact h'.symm
    subst he
    exact ⟨rfl, rfl⟩

/-- C9: when an input list contains several rows sharing one key-field
value, only the last such row determines that key's map entry (row content
and hash), and every row emitted by `computeDiff` is the last occurrence
of its key in its originating list — earlier duplicates are never emitted. -/
theorem computeDiff_last_occurrence (old nw : List Row) (kf : String) :
    (∀ k e, mapGet? (buildKeyMap nw kf) k = some e →
       lastKeyed nw kf k = some e.row ∧ e.hash = computeRowHash e.row) ∧
    (∀ r, (r ∈ (computeDiff old nw kf).inserts ∨ r ∈ (computeDiff old nw kf).updates) →
       lastKeyed nw kf (getField r kf) = some r) ∧
    (∀ r, r ∈ (computeDiff old nw kf).deletes →
       lastKeyed old kf (getField r kf) = some r) := by
  refine ⟨fun k e h => buildKeyMap_get_lastKeyed nw kf k e h, ?_, ?_⟩
  · intro r hr
    have hmap : ∃ p ∈ buildKeyMap nw kf, p.2.row = r := by
      rcases hr with h | h
      · rw [computeDiff_inserts] at h
        obtain ⟨p, hp, hpr⟩ := List.mem_map.mp h
        exact ⟨p, List.mem_of_mem_filter hp, hpr⟩
      · rw [computeDiff_updates] at h
        obtain ⟨p, hp, hpr⟩ := List.mem_map.mp h
        exact ⟨p, List.mem_of_mem_filter hp, hpr⟩
    obtain ⟨p, hp, hpr⟩ := hmap
    have hget : mapGet? (buildKeyMap nw kf) p.1 = some p.2 :=
      mapGet?_eq_of_mem (buildKeyMap_nodupKeys nw kf) hp
    have hlast := (buildKeyMap_get_lastKeyed nw kf p.1 p.2 hget).1
    have hkey : getField p.2.row kf = p.1 := (buildKeyMap_wf nw kf p hp).1
    rw [← hpr, hkey]
    exact hlast
  · intro r h
    rw [computeDiff_deletes] at h
    obtain ⟨p, hp, hpr⟩ := List.mem_map.mp h
    have hp' : p ∈ buildKeyMap old kf := List.mem_of_mem_filter hp
    have hget : mapGet? (buildKeyMap old kf) p.1 = some p.2 :=
      mapGet?_eq_of_mem (buildKeyMap_nodupKeys old kf) hp'
    have hlast := (buildKeyMap_get_lastKeyed old kf p.1 p.2 hget).1
    have hkey : getField p.2.row kf = p.1 := (buildKeyMap_wf old kf p hp').1
    rw [← hpr, hkey]
    exact hlast

/-- First duplicate-key row of the C9 witness data. -/
def exDupRow1 : Row := [("code", JValue.vStr "A"), ("n", JValue.vNum 1)]

/-- Second (last) duplicate-key row of the C9 witness data. -/
def exDupRow2 : Row := [("code", JValue.vStr "A"), ("n", JValue.vNum 2)]

/-- A table holding two rows with the same key `"A"`. -/
def exDupData : List Row := [exDupRow1, exDupRow2]

/-- C9 witness: on a table with two rows keyed `"A"`, the map binding of
`"A"` is the last row, and the hash stored with it is that row's hash. -/
theorem computeDiff_last_occurrence_witness :
    lastKeyed exDupData "code" (JValue.vStr "A") = some exDupRow2 ∧
    (DiffEntry.mk exDupRow2 (computeRowHash exDupRow2)).hash =
      computeRowHash (DiffEntry.mk exDupRow2 (computeRowHash exDupRow2)).row :=
  (computeDiff_last_occurrence [] exDupData "code").1 (JValue.vStr "A")
    (DiffEntry.mk exDupRow2 (computeRowHash exDupRow2)) (by decide)

/-- A database snapshot: a mapping from table name to its rows (the JSON
object persisted by the snapshot store). -/
abbrev Snapshot := JMap String (List Row)

/-- The on-disk content of one snapshot file slot: either bytes that
gunzip and JSON-parse to a snapshot, or bytes for which that pipeline
throws. -/
inductive SnapFile where
  | valid (snap : Snapshot)
  | corrupt
deriving DecidableEq, Repr

/-- The file-system state the snapshot store sees for one database key:
the optional primary file and the optional backup file (the timestamped
archive copies play no role in loading and are modelled by a counter in
`saveSnapshot`). -/
structure SnapStore where
  main : Option SnapFile
  backup : Option SnapFile
  archives : Nat
deriving DecidableEq, Repr

/-- `SnapshotManager.loadSnapshot` from `src/services/snapshot.js`, as a
function of the file-system state for the requested key.  The `try` block
returns the parsed primary file, or `{}` when no primary file exists; the
`catch` block (reached only when reading/decompressing/parsing the primary
throws) tries the backup if it exists and returns `{}` when that fails
too.  The function never throws. -/
def loadSnapshot (st : SnapStore) : Snapshot :=
  match st.main with
  | some (.valid s) => s
  | some .corrupt =>
      match st.backup with
      | some (.valid b) => b
      | _ => []
  | none => []

/-- `SnapshotManager.saveSnapshot` from `src/services/snapshot.js`: when a
primary file exists it is first copied to the backup path and to a fresh
timestamped archive; then the new snapshot is compressed and written as
the primary.  File-system writes are modelled as succeeding. -/
def saveSnapshot (st : SnapStore) (snap : Snapshot) : SnapStore :=
  match st.main with
  | some f => { main := some (.valid snap), backup := some f, archives := st.archives + 1 }
  | none => { main := some (.valid snap), backup := st.backup, archives := st.archives }

/-- C5 (amended): snapshot load fails soft and never raises (it is a total
function of the store state), but the backup is consulted only when the
primary file exists and is corrupted: a valid primary is returned as is, a
missing primary yields the empty snapshot immediately without reading the
backup, a corrupted primary falls back to a valid backup, and a corrupted
primary with a missing or corrupted backup yields the empty snapshot. -/
theorem loadSnapshot_fails_soft (st : SnapStore) :
    (∀ s, st.main = some (.valid s) → loadSnapshot st = s) ∧
    (st.main = none → loadSnapshot st = []) ∧
    (∀ b, st.main = some .corrupt → st.backup = some (.valid b) → loadSnapshot st = b) ∧
    (st.main = some .corrupt → st.backup = none → loadSnapshot st = []) ∧
    (st.main = some .corrupt → st.backup = some .corrupt → loadSnapshot st = []) := by
  obtain ⟨m, b, a⟩ := st
  refine ⟨?_, ?_, ?_, ?_, ?_⟩
  · rintro s rfl
    rfl
  · rintro rfl
    rfl
  · rintro bs rfl rfl
    rfl
  · rintro rfl rfl
    rfl
  · rintro rfl rfl
    rfl

/-- A nonempty snapshot for the C5 counterexample. -/
def exBackupSnap : Snapshot := [("rrc_clients", [exRowA])]

/-- C5 counterexample: the claim says a missing primary file makes `load`
fall back to the backup file; in fact `loadSnapshot` returns the empty
snapshot without consulting the (valid, nonempty) backup. -/
theorem loadSnapshot_missing_primary_counterexample :
    loadSnapshot { main := none, backup := some (.valid exBackupSnap), archives := 0 } = [] ∧
    loadSnapshot { main := none, backup := some (.valid exBackupSnap), archives := 0 } ≠
      exBackupSnap := by
  decide

/-- C5 witness: the amended fail-soft theorem applied to a store whose
primary is corrupted and whose backup is valid. -/
theorem loadSnapshot_fails_soft_witness :
    loadSnapshot { main := some .corrupt, backup := some (.valid exBackupSnap), archives := 0 } =
      exBackupSnap :=
  (loadSnapshot_fails_soft
    { main := some .corrupt, backup := some (.valid exBackupSnap), archives := 0 }).2.2.1
    exBackupSnap rfl rfl

/-- An observable step of the ODBC retry loop in `connectToDatabase`:
a connection attempt (numbered from 0) or a backoff delay in
milliseconds. -/
inductive ConnEvent where
  | attempt (i : Nat)
  | sleep (ms : Nat)
deriving DecidableEq, Repr

/-- The `while (retries > 0)` loop of `connectToDatabase` for the ODBC
style (`src/services/database.js`): try `odbc.connect`; on success break
with the connection; on failure decrement `retries`, rethrow the error
when `retries` reaches 0, otherwise wait 1000 ms and try again.  The
outcome of the i-th `odbc.connect` call is supplied by `attempts`; the
returned list is the trace of attempts and sleeps, and the `Option` is
`none` when the loop is entered with 0 retries (the connection variable
would be left unassigned — unreachable from the function entry, which
always starts with 3 retries). -/
def connectLoop {E C : Type} (attempts : Nat → Except E C) :
    Nat → Nat → List ConnEvent × Option (Except E C)
  | _, 0 => ([], none)
  | i, n + 1 =>
    match attempts i with
    | .ok c => ([.attempt i], some (.ok c))
    | .error e =>
      if n = 0 then ([.attempt i], some (.error e))
      else
        let rest := connectLoop attempts (i + 1) n
        (.attempt i :: .sleep 1000 :: rest.1, rest.2)

/-- `connectToDatabase` for the ODBC connection style: enter the retry
loop with `retries = 3`. -/
def connectToDatabaseOdbc {E C : Type} (attempts : Nat → Except E C) :
    List ConnEvent × Option (Except E C) :=
  connectLoop attempts 0 3

/-- C6: the ODBC-style connection acquisition attempts the connection up
to 3 times with a fixed 1000 ms backoff between consecutive attempts; a
success on any attempt returns that connection with no further attempts,
and when every attempt fails the error of the final attempt is propagated
to the caller. -/
theorem connectToDatabase_retry (E C : Type) (attempts : Nat → Except E C) :
    (∀ c, attempts 0 = .ok c →
       connectToDatabaseOdbc attempts = ([.attempt 0], some (.ok c))) ∧
    (∀ e0 c, attempts 0 = .error e0 → attempts 1 = .ok c →
       connectToDatabaseOdbc attempts =
         ([.attempt 0, .sleep 1000, .attempt 1], some (.ok c))) ∧
    (∀ e0 e1 c, attempts 0 = .error e0 → attempts 1 = .error e1 → attempts 2 = .ok c →
       connectToDatabaseOdbc attempts =
         ([.attempt 0, .sleep 1000, .attempt 1, .sleep 1000, .attempt 2], some (.ok c))) ∧
    (∀ e0 e1 e2, attempts 0 = .error e0 → attempts 1 = .error e1 → attempts 2 = .error e2 →
       connectToDatabaseOdbc attempts =
         ([.attempt 0, .sleep 1000, .attempt 1, .sleep 1000, .attempt 2],
          some (.error e2))) := by
  refine ⟨?_, ?_, ?_, ?_⟩
  · intro c h0
    simp [connectToDatabaseOdbc, connectLoop, h0]
  · intro e0 c h0 h1
    simp [connectToDatabaseOdbc, connectLoop, h0, h1]
  · intro e0 e1 c h0 h1 h2
    simp [connectToDatabaseOdbc, connectLoop, h0, h1, h2]
  · intro e0 e1 e2 h0 h1 h2
    simp [connectToDatabaseOdbc, connectLoop, h0, h1, h2]

/-- A concrete attempt oracle: the first two attempts fail, the third
succeeds. -/
def exAttempts : Nat → Except String Nat :=
  fun i => if i < 2 then Except.error "no link" else Except.ok 7

/-- C6 witness: the retry theorem applied to the concrete oracle whose
first two attempts fail. -/
theorem connectToDatabase_retry_witness :
    connectToDatabaseOdbc exAttempts =
      ([.attempt 0, .sleep 1000, .attempt 1, .sleep 1000, .attempt 2],
       some (Except.ok 7)) :=
  (connectToDatabase_retry String Nat exAttempts).2.2.1 "no link" "no link" 7 rfl rfl rfl

/-- A parameterised SQL statement issued by `syncToWebDB` to the web
database client, tagged by query shape and carrying the bound values. -/
inductive Stmt where
  | upsertRrcClient (code name address branch : JValue)
  | updateRrcClient (code name address branch : JValue)
  | deleteRrcClient (code : JValue)
  | checkAccUser (id : JValue)
  | updateAccUser (cols : List String) (vals : List JValue)
  | insertAccUser (cols : List String) (vals : List JValue)
  | deleteAccUser (id : JValue)
  | deleteAccUsersIn (ids : List JValue)
deriving DecidableEq, Repr

/-- Is the statement a delete against `acc_users` (per-row or batched)? -/
def Stmt.isAccDelete : Stmt → Bool
  | .deleteAccUser _ => true
  | .deleteAccUsersIn _ => true
  | _ => false

/-- Is the statement a delete against `rrc_clients`? -/
def Stmt.isRrcDelete : Stmt → Bool
  | .deleteRrcClient _ => true
  | _ => false

/-- The diff data consumed by `syncToWebDB`: one `DiffResult` per synced
table. -/
structure WebDiffData where
  rrc_clients : DiffResult
  acc_users : DiffResult
deriving DecidableEq, Repr

/-- The `rrc_clients` sections of `syncToWebDB`: one upsert per insert
row, one update per update row and one keyed delete per delete row (the
`length > 0` guards of the source are no-ops on the statement list). -/
def rrcClientStmts (d : DiffResult) : List Stmt :=
  d.inserts.map (fun r =>
    Stmt.upsertRrcClient (getField r "code") (getField r "name")
      (getField r "address") (getField r "branch"))
  ++ d.updates.map (fun r =>
    Stmt.updateRrcClient (getField r "code") (getField r "name")
      (getField r "address") (getField r "branch"))
  ++ d.deletes.map (fun r => Stmt.deleteRrcClient (getField r "code"))

/-- The `acc_users` insert section of `syncToWebDB`: the column set is
derived from the first row of the batch; per row the client receives an
existence check followed by an update (when `existsInDb` reports the id as
present) or an insert. -/
def accUserInsertStmts (existsInDb : JValue → Bool) (rows : List Row) : List Stmt :=
  match rows with
  | [] => []
  | r0 :: _ =>
    (rows.map (fun r =>
      if existsInDb (getField r "id") then
        [Stmt.checkAccUser (getField r "id"),
         Stmt.updateAccUser ((r0.map Prod.fst).filter (fun c => !(decide (c = "id"))))
           (getField r "id" ::
             ((r0.map Prod.fst).filter (fun c => !(decide (c = "id")))).map
               (fun c => getField r c))]
      else
        [Stmt.checkAccUser (getField r "id"),
         Stmt.insertAccUser (r0.map Prod.fst)
           ((r0.map Prod.fst).map (fun c => getField r c))])).flatten

/-- The `acc_users` update section of `syncToWebDB`: one update per row,
with the column set derived from the first row of the batch minus `id`. -/
def accUserUpdateStmts (rows : List Row) : List Stmt :=
  match rows with
  | [] => []
  | r0 :: _ =>
    rows.map (fun r =>
      Stmt.updateAccUser ((r0.map Prod.fst).filter (fun c => !(decide (c = "id"))))
        (getField r "id" ::
          ((r0.map Prod.fst).filter (fun c => !(decide (c = "id")))).map
            (fun c => getField r c)))

/-- The `acc_users` delete section of `syncToWebDB`: when the batch holds
more than 10 rows a single `DELETE ... WHERE id = ANY($1)` set-membership
statement carries every id; otherwise one keyed delete per row. -/
def accUserDeleteStmts (rows : List Row) : List Stmt :=
  if rows.length > 10 then
    [Stmt.deleteAccUsersIn (rows.map (fun r => getField r "id"))]
  else
    rows.map (fun r => Stmt.deleteAccUser (getField r "id"))

/-- `syncToWebDB` from `src/services/sync.js` as the list of statements it
issues to the destination client, in source order: `rrc_clients` inserts,
updates and deletes, then `acc_users` inserts, updates and deletes.
`existsInDb` supplies the result of the per-row existence check of the
`acc_users` insert section. -/
def syncToWebDB (existsInDb : JValue → Bool) (d : WebDiffData) : List Stmt :=
  rrcClientStmts d.rrc_clients
  ++ accUserInsertStmts existsInDb d.acc_users.inserts
  ++ accUserUpdateStmts d.acc_users.updates
  ++ accUserDeleteStmts d.acc_users.deletes

theorem accUserInsertStmts_no_delete (existsInDb : JValue → Bool) (rows : List Row) :
    ∀ s ∈ accUserInsertStmts existsInDb rows,
      s.isAccDelete = false ∧ s.isRrcDelete = false := by
  intro s hs
  cases rows with
  | nil => simp [accUserInsertStmts] at hs
  | cons r0 rest =>
    simp only [accUserInsertStmts, List.mem_flatten, List.mem_map] at hs
    obtain ⟨l, ⟨r, -, hl⟩, hsl⟩ := hs
    by_cases he : existsInDb (getField r "id") = true
    · rw [if_pos he] at hl
      subst hl
      simp only [List.mem_cons, List.not_mem_nil, or_false] at hsl
      rcases hsl with rfl | rfl
      · exact ⟨rfl, rfl⟩
      · exact ⟨rfl, rfl⟩
    · rw [if_neg he] at hl
      subst hl
      simp only [List.mem_cons, List.not_mem_nil, or_false] at hsl
      rcases hsl with rfl | rfl
      · exact ⟨rfl, rfl⟩
      · exact ⟨rfl, rfl⟩

theorem accUserUpdateStmts_no_delete (rows : List Row) :
    ∀ s ∈ accUserUpdateStmts rows, s.isAccDelete = false ∧ s.isRrcDelete = false := by
  intro s hs
  cases rows with
  | nil => simp [accUserUpdateStmts] at hs
  | cons r0 rest =>
    simp only [accUserUpdateStmts, List.mem_map] at hs
    obtain ⟨r, -, hr⟩ := hs
    subst hr
    exact ⟨rfl, rfl⟩

theorem rrcClientStmts_no_acc_delete (d : DiffResult) :
    ∀ s ∈ rrcClientStmts d, s.isAccDelete = false := by
  intro s hs
  unfold rrcClientStmts at hs
  simp only [List.mem_append, List.mem_map] at hs
  rcases hs with (⟨r, -, rfl⟩ | ⟨r, -, rfl⟩) | ⟨r, -, rfl⟩ <;> rfl

/-- The `rrc_clients` section issues exactly one delete statement per
delete row, whatever the batch size. -/
theorem rrcClientStmts_delete_count (d : DiffResult) :
    (rrcClientStmts d).countP Stmt.isRrcDelete = d.deletes.length := by
  unfold rrcClientStmts
  rw [List.countP_append, List.countP_append]
  have h1 : (d.inserts.map (fun r =>
      Stmt.upsertRrcClient (getField r "code") (getField r "name")
        (getField r "address") (getField r "branch"))).countP Stmt.isRrcDelete = 0 := by
    rw [List.countP_eq_zero]
    intro s hs
    obtain ⟨r, -, rfl⟩ := List.mem_map.mp hs
    simp [Stmt.isRrcDelete]
  have h2 : (d.updates.map (fun r =>
      Stmt.updateRrcClient (getField r "code") (getField r "name")
        (getField r "address") (getField r "branch"))).countP Stmt.isRrcDelete = 0 := by
    rw [List.countP_eq_zero]
    intro s hs
    obtain ⟨r, -, rfl⟩ := List.mem_map.mp hs
    simp [Stmt.isRrcDelete]
  have h3 : (d.deletes.map (fun r =>
      Stmt.deleteRrcClient (getField r "code"))).countP Stmt.isRrcDelete =
      (d.deletes.map (fun r => Stmt.deleteRrcClient (getField r "code"))).length := by
    rw [List.countP_eq_length]
    intro s hs
    obtain ⟨r, -, rfl⟩ := List.mem_map.mp hs
    rfl
  rw [h1, h2, h3, List.length_map]
  omega

/-- C7 (amended): deletes are applied by key for both tables, but the
above-10 set-membership batching exists only for the `acc_users` table:
with an `acc_users` delete batch larger than 10, `syncToWebDB` issues
exactly one `acc_users` delete statement — the set-membership delete
carrying every row's id — while the `rrc_clients` section always issues
exactly one keyed delete statement per delete row. -/
theorem syncToWebDB_delete_batching (existsInDb : JValue → Bool) (d : WebDiffData)
    (h : 10 < d.acc_users.deletes.length) :
    (syncToWebDB existsInDb d).countP Stmt.isAccDelete = 1 ∧
    Stmt.deleteAccUsersIn (d.acc_users.deletes.map (fun r => getField r "id")) ∈
      syncToWebDB existsInDb d ∧
    (syncToWebDB existsInDb d).countP Stmt.isRrcDelete = d.rrc_clients.deletes.length ∧
    (∀ r ∈ d.rrc_clients.deletes,
      Stmt.deleteRrcClient (getField r "code") ∈ syncToWebDB existsInDb d) := by
  have hdel : accUserDeleteStmts d.acc_users.deletes =
      [Stmt.deleteAccUsersIn (d.acc_users.deletes.map (fun r => getField r "id"))] := by
    unfold accUserDeleteStmts
    rw [if_pos h]
  refine ⟨?_, ?_, ?_, ?_⟩
  · unfold syncToWebDB
    rw [List.countP_append, List.countP_append, List.countP_append, hdel]
    have h1 : (rrcClientStmts d.rrc_clients).countP Stmt.isAccDelete = 0 := by
      rw [List.countP_eq_zero]
      intro s hs
      simp [rrcClientStmts_no_acc_delete d.rrc_clients s hs]
    have h2 : (accUserInsertStmts existsInDb d.acc_users.inserts).countP Stmt.isAccDelete = 0 := by
      rw [List.countP_eq_zero]
      intro s hs
      simp [(accUserInsertStmts_no_delete existsInDb d.acc_users.inserts s hs).1]
    have h3 : (accUserUpdateStmts d.acc_users.updates).countP Stmt.isAccDelete = 0 := by
      rw [List.countP_eq_zero]
      intro s hs
      simp [(accUserUpdateStmts_no_delete d.acc_users.updates s hs).1]
    rw [h1, h2, h3]
    rfl
  · unfold syncToWebDB
    rw [hdel]
    simp
  · unfold syncToWebDB
    rw [List.countP_append, List.countP_append, List.countP_append, hdel]
    have h2 : (accUserInsertStmts existsInDb d.acc_users.inserts).countP Stmt.isRrcDelete = 0 := by
      rw [List.countP_eq_zero]
      intro s hs
      simp [(accUserInsertStmts_no_delete existsInDb d.acc_users.inserts s hs).2]
    have h3 : (accUserUpdateStmts d.acc_users.updates).countP Stmt.isRrcDelete = 0 := by
      rw [List.countP_eq_zero]
      intro s hs
      simp [(accUserUpdateStmts_no_delete d.acc_users.updates s hs).2]
    rw [h2, h3, rrcClientStmts_delete_count]
    rfl
  · intro r hr
    unfold syncToWebDB
    rw [List.mem_append, List.mem_append, List.mem_append]
    left; left; left
    unfold rrcClientStmts
    rw [List.mem_append]
    right
    exact List.mem_map_of_mem _ hr

/-- An `rrc_clients` delete batch of 11 rows (above the threshold of 10). -/
def exRrcDeleteBatch : List Row :=
  (List.range 11).map (fun i => [("code", JValue.vNum (Int.ofNat i + 1))])

/-- Diff data whose only content is the 11-row `rrc_clients` delete batch. -/
def exRrcDiff : WebDiffData :=
  { rrc_clients := { inserts := [], updates := [], deletes := exRrcDeleteBatch },
    acc_users := { inserts := [], updates := [], deletes := [] } }

/-- C7 counterexample: for the `rrc_clients` table a delete batch of 11
rows (above the threshold of 10) is applied as 11 individual keyed delete
statements — no single set-membership statement is issued for the batch,
refuting the claim for "every table's delete batch". -/
theorem syncToWebDB_rrc_no_batching_counterexample :
    10 < exRrcDiff.rrc_clients.deletes.length ∧
    syncToWebDB (fun _ => false) exRrcDiff =
      exRrcDeleteBatch.map (fun r => Stmt.deleteRrcClient (getField r "code")) ∧
    (syncToWebDB (fun _ => false) exRrcDiff).length = 11 := by
  refine ⟨by decide, ?_, by decide⟩
  decide

/-- An `acc_users` delete batch of 11 rows (above the threshold of 10). -/
def exAccDeleteBatch : List Row :=
  (List.range 11).map (fun i => [("id", JValue.vNum (Int.ofNat i + 1))])

/-- Diff data whose only content is the 11-row `acc_users` delete batch. -/
def exAccDiff : WebDiffData :=
  { rrc_clients := { inserts := [], updates := [], deletes := [] },
    acc_users := { inserts := [], updates := [], deletes := exAccDeleteBatch } }

/-- C7 witness: the amended batching theorem applied to an 11-row
`acc_users` delete batch. -/
theorem syncToWebDB_delete_batching_witness :
    10 < exAccDiff.acc_users.deletes.length ∧
    ((syncToWebDB (fun _ => false) exAccDiff).countP Stmt.isAccDelete = 1 ∧
     Stmt.deleteAccUsersIn (exAccDiff.acc_users.deletes.map (fun r => getField r "id")) ∈
       syncToWebDB (fun _ => false) exAccDiff ∧
     (syncToWebDB (fun _ => false) exAccDiff).countP Stmt.isRrcDelete =
       exAccDiff.rrc_clients.deletes.length ∧
     (∀ r ∈ exAccDiff.rrc_clients.deletes,
       Stmt.deleteRrcClient (getField r "code") ∈ syncToWebDB (fun _ => false) exAccDiff)) :=
  ⟨by decide, syncToWebDB_delete_batching (fun _ => false) exAccDiff (by decide)⟩

/-- The scheduler state of the optimized `app.js`: the `isSyncRunning`
guard flag, the number of `syncProcess` invocations currently in flight,
and the count of skipped (logged) triggers.  There is no queue — the
callback either starts a cycle or returns. -/
structure SchedState where
  isSyncRunning : Bool
  inFlight : Nat
  skipped : Nat
deriving DecidableEq, Repr

/-- An external event hitting the scheduler: a cron trigger firing, or the
in-flight `syncProcess` settling (its `finally` block running). -/
inductive SchedEvent where
  | trigger
  | finish
deriving DecidableEq, Repr

/-- One step of the cron callback of the optimized `app.js` (`syncJob`):
a trigger while `isSyncRunning` is set only logs a skip and returns;
otherwise it sets the flag and starts a cycle.  JavaScript callbacks run
to completion between `await` points, so the flag test and the flag
assignment are a single atomic step.  A finish event clears the flag in
the `finally` block and retires the in-flight cycle. -/
def schedStep (s : SchedState) : SchedEvent → SchedState
  | .trigger =>
      if s.isSyncRunning then
        { s with skipped := s.skipped + 1 }
      else
        { s with isSyncRunning := true, inFlight := s.inFlight + 1 }
  | .finish =>
      if s.inFlight > 0 then
        { s with isSyncRunning := false, inFlight := s.inFlight - 1 }
      else s

/-- The scheduler state at process start. -/
def schedInit : SchedState := { isSyncRunning := false, inFlight := 0, skipped := 0 }

/-- The scheduler state after a sequence of events starting from process
start. -/
def schedRun (evs : List SchedEvent) : SchedState :=
  evs.foldl schedStep schedInit

/-- The reachability invariant of the scheduler: a cycle is in flight
exactly when the guard flag is set. -/
def SchedState.inv (s : SchedState) : Prop :=
  s.inFlight = (if s.isSyncRunning then 1 else 0)

theorem schedStep_inv (s : SchedState) (e : SchedEvent) (h : s.inv) :
    (schedStep s e).inv := by
  obtain ⟨f, n, k⟩ := s
  unfold SchedState.inv at h ⊢
  cases e with
  | trigger =>
    cases f <;> simp_all [schedStep]
  | finish =>
    cases f <;> simp_all [schedStep]

theorem schedRun_inv (evs : List SchedEvent) : (schedRun evs).inv := by
  unfold schedRun
  have h : ∀ s : SchedState, s.inv → (evs.foldl schedStep s).inv := by
    induction evs with
    | nil => intro s hs; simpa using hs
    | cons e rest ih =>
      intro s hs
      rw [List.foldl_cons]
      exact ih _ (schedStep_inv s e hs)
  exact h schedInit (by unfold SchedState.inv schedInit; rfl)

/-- C8: at most one sync cycle is in flight after any sequence of trigger
and finish events, and a trigger that fires while a cycle is running
leaves the in-flight count and the guard flag unchanged — the trigger is
only counted as skipped, never queued or run concurrently. -/
theorem syncJob_no_overlap (evs : List SchedEvent) :
    (schedRun evs).inFlight ≤ 1 ∧
    (∀ s : SchedState, s.isSyncRunning = true →
       (schedStep s .trigger).inFlight = s.inFlight ∧
       (schedStep s .trigger).isSyncRunning = s.isSyncRunning ∧
       (schedStep s .trigger).skipped = s.skipped + 1) := by
  constructor
  · have h := schedRun_inv evs
    unfold SchedState.inv at h
    rw [h]
    cases (schedRun evs).isSyncRunning <;> simp
  · intro s hs
    unfold schedStep
    rw [hs]
    exact ⟨rfl, rfl, rfl⟩

/-- C8 witness: the no-overlap theorem applied to a concrete event
sequence in which a second trigger fires while the first cycle runs. -/
theorem syncJob_no_overlap_witness :
    (schedRun [.trigger, .trigger, .finish, .trigger]).inFlight ≤ 1 ∧
    (schedStep { isSyncRunning := true, inFlight := 1, skipped := 0 } .trigger).inFlight = 1 ∧
    (schedStep { isSyncRunning := true, inFlight := 1, skipped := 0 } .trigger).skipped = 1 :=
  ⟨(syncJob_no_overlap [.trigger, .trigger, .finish, .trigger]).1,
   ((syncJob_no_overlap []).2 { isSyncRunning := true, inFlight := 1, skipped := 0 } rfl).1,
   ((syncJob_no_overlap []).2 { isSyncRunning := true, inFlight := 1, skipped := 0 } rfl).2.2⟩

/-- Per-source synchronisation statistics (`syncStats` in
`src/services/sync.js`).  Wall-clock durations are real-time quantities
and are not modelled; timestamps are abstract instants supplied by the
environment. -/
structure Stats where
  totalSyncs : Nat
  successfulSyncs : Nat
  failedSyncs : Nat
  lastSyncTime : Option Nat
  lastSuccessTime : Option Nat
  lastErrorTime : Option Nat
  lastError : Option String
deriving DecidableEq, Repr

/-- The zero-initialised statistics record. -/
def emptyStats : Stats := ⟨0, 0, 0, none, none, none, none⟩

/-- The outcomes of the asynchronous I/O steps of one orchestrator cycle.
Each fallible `await` of the source is represented by an explicit
`Except` outcome: the destination connection, the remote fetch, the
bootstrap `COUNT(*)` query, the table reads of `createSnapshotFromWebDB`,
the apply step (`syncToWebDB`) and the `COMMIT` statement.  `BEGIN` and
`ROLLBACK` are modelled as succeeding, and snapshot-file writes as
succeeding, which matches every execution in which only the steps above
can fail.  `existsInDb` answers the per-row existence checks inside the
apply step, and `now` is the cycle's wall-clock instant. -/
structure SyncEnv where
  connectR : Except String Unit
  fetchR : Except String Snapshot
  countR : Except String Nat
  webRowsR : Except String (List Row × List Row)
  applyR : Except String Unit
  existsInDb : JValue → Bool
  commitR : Except String Unit
  now : Nat

/-- An observable event of one orchestrator cycle: transaction control
and data statements on the destination, the bootstrap count query, and
snapshot-store writes. -/
inductive DbEvent where
  | beginTx
  | countQuery
  | applyStmts (stmts : List Stmt)
  | saveSnap (key : String)
  | commitTx
  | rollbackTx
deriving DecidableEq, Repr

/-- Load the persisted snapshot of `key` from the per-key file-system
states (an absent key behaves as an empty slot pair). -/
def storeLoad (store : JMap String SnapStore) (key : String) : Snapshot :=
  loadSnapshot ((mapGet? store key).getD { main := none, backup := none, archives := 0 })

/-- Persist `snap` as the snapshot of `key` via `saveSnapshot`. -/
def storeSave (store : JMap String SnapStore) (key : String) (snap : Snapshot) :
    JMap String SnapStore :=
  mapSet store key
    (saveSnapshot ((mapGet? store key).getD { main := none, backup := none, archives := 0 }) snap)

/-- The table-defaulting loop of `syncRemoteToWeb`'s bootstrap branch:
`["rrc_clients","acc_users"].forEach(t => { if (!old[t]) old[t] = [] })`. -/
def ensureTables (tables : List String) (s : Snapshot) : Snapshot :=
  tables.foldl (fun acc t => if mapHas acc t then acc else mapSet acc t []) s

/-- The mutable state `syncRemoteToWeb` touches: the snapshot store's
file-system states and the `remote` statistics record. -/
structure RwState where
  store : JMap String SnapStore
  remoteStats : Stats
deriving DecidableEq, Repr

/-- The two per-table diffs of `syncRemoteToWeb`: `rrc_clients` keyed by
`code` and `acc_users` keyed by `id`, with absent tables read as empty
(`snapshot[table] || []`). -/
def rwDiffData (oldS newData : Snapshot) : WebDiffData :=
  { rrc_clients := computeDiff ((mapGet? oldS "rrc_clients").getD [])
      ((mapGet? newData "rrc_clients").getD []) "code",
    acc_users := computeDiff ((mapGet? oldS "acc_users").getD [])
      ((mapGet? newData "acc_users").getD []) "id" }

/-- The `totalChanges` sum of a cycle's diff data. -/
def diffTotal (d : WebDiffData) : Nat :=
  d.rrc_clients.inserts.length + d.rrc_clients.updates.length +
    d.rrc_clients.deletes.length + d.acc_users.inserts.length +
    d.acc_users.updates.length + d.acc_users.deletes.length

/-- The catch block of `syncRemoteToWeb`: issue `ROLLBACK`, record the
failure in the `remote` statistics, set `lastSyncTime` in the `finally`
block, and rethrow the error. -/
def rwFail (env : SyncEnv) (st : RwState) (evs : List DbEvent) (e : String) :
    RwState × List DbEvent × Except String Unit :=
  ({ st with remoteStats := { st.remoteStats with
      failedSyncs := st.remoteStats.failedSyncs + 1,
      lastErrorTime := some env.now,
      lastError := some e,
      lastSyncTime := some env.now } },
   evs ++ [DbEvent.rollbackTx], .error e)

/-- The success tail of `syncRemoteToWeb`: record the success in the
`remote` statistics and set `lastSyncTime` in the `finally` block. -/
def rwSuccess (env : SyncEnv) (st : RwState) (evs : List DbEvent) :
    RwState × List DbEvent × Except String Unit :=
  ({ st with remoteStats := { st.remoteStats with
      successfulSyncs := st.remoteStats.successfulSyncs + 1,
      lastSuccessTime := some env.now,
      lastSyncTime := some env.now } },
   evs, .ok ())

/-- The old-snapshot resolution of `syncRemoteToWeb`: load the persisted
`remote` snapshot; when it is empty, count the destination's
`rrc_clients` rows and either bootstrap a baseline from the destination
(`createSnapshotFromWebDB` saves it under `"web"`, the defaulting loop
fills missing tables, and the baseline is saved under `"remote"` too) or
start from the empty two-table snapshot. -/
def rwResolveOld (env : SyncEnv) (st : RwState) :
    RwState × List DbEvent × Except String Snapshot :=
  let loaded := storeLoad st.store "remote"
  if loaded = [] then
    match env.countR with
    | .error e => (st, [DbEvent.countQuery], .error e)
    | .ok n =>
      if n > 0 then
        match env.webRowsR with
        | .error e => (st, [DbEvent.countQuery], .error e)
        | .ok wr =>
          let webData : Snapshot := [("rrc_clients", wr.1), ("acc_users", wr.2)]
          let oldS := ensureTables ["rrc_clients", "acc_users"] webData
          ({ st with store := storeSave (storeSave st.store "web" webData) "remote" oldS },
           [DbEvent.countQuery, DbEvent.saveSnap "web", DbEvent.saveSnap "remote"],
           .ok oldS)
      else
        (st, [DbEvent.countQuery], .ok [("rrc_clients", []), ("acc_users", [])])
  else (st, [], .ok loaded)

/-- The statistics prologue of `syncRemoteToWeb`:
`syncStats.remote.totalSyncs++`, run before the connection attempt. -/
def rwStart (st : RwState) : RwState :=
  { st with remoteStats :=
    { st.remoteStats with totalSyncs := st.remoteStats.totalSyncs + 1 } }

/-- `syncRemoteToWeb` from `src/services/sync.js`, as a function of the
I/O outcomes and the initial state: increment `totalSyncs`, connect to the
destination (a connection failure propagates before the `try` block, so it
bypasses rollback and failure statistics), `BEGIN`, fetch the remote data,
resolve the old snapshot (bootstrapping when none exists), diff, and —
when `totalChanges` is nonzero — apply the diff and persist the new
`remote` snapshot before issuing `COMMIT`.  Every error inside the `try`
rolls back, records the failure and rethrows. -/
def syncRemoteToWeb (env : SyncEnv) (st : RwState) :
    RwState × List DbEvent × Except String Unit :=
  match env.connectR with
  | .error e => (rwStart st, [], .error e)
  | .ok _ =>
    match env.fetchR with
    | .error e => rwFail env (rwStart st) [DbEvent.beginTx] e
    | .ok newData =>
      match rwResolveOld env (rwStart st) with
      | (st1, evs1, .error e) => rwFail env st1 (DbEvent.beginTx :: evs1) e
      | (st1, evs1, .ok oldS) =>
        let d := rwDiffData oldS newData
        if diffTotal d = 0 then
          match env.commitR with
          | .error e => rwFail env st1 ((DbEvent.beginTx :: evs1) ++ [DbEvent.commitTx]) e
          | .ok _ => rwSuccess env st1 ((DbEvent.beginTx :: evs1) ++ [DbEvent.commitTx])
        else
          match env.applyR with
          | .error e => rwFail env st1 ((DbEvent.beginTx :: evs1) ++
              [DbEvent.applyStmts (syncToWebDB env.existsInDb d)]) e
          | .ok _ =>
            let st2 : RwState := { st1 with store := storeSave st1.store "remote" newData }
            let evs2 := (DbEvent.beginTx :: evs1) ++
              [DbEvent.applyStmts (syncToWebDB env.existsInDb d), DbEvent.saveSnap "remote"]
            match env.commitR with
            | .error e => rwFail env st2 (evs2 ++ [DbEvent.commitTx]) e
            | .ok _ => rwSuccess env st2 (evs2 ++ [DbEvent.commitTx])

/-- A nonempty persisted `remote` snapshot used by the orchestrator
scenarios. -/
def exOldRemoteData : Snapshot := [("rrc_clients", [exRowA]), ("acc_users", [])]

/-- Fetched remote data differing from the persisted snapshot in one row. -/
def exNewRemoteData : Snapshot := [("rrc_clients", [exRowA2]), ("acc_users", [])]

/-- A snapshot store holding a valid `remote` snapshot. -/
def exC1Store : JMap String SnapStore :=
  [("remote", { main := some (.valid exOldRemoteData), backup := none, archives := 0 })]

/-- Orchestrator state before the scenario cycles. -/
def exC1State : RwState := { store := exC1Store, remoteStats := emptyStats }

/-- I/O outcomes of a cycle whose apply succeeds and whose `COMMIT`
statement fails. -/
def exC1Env : SyncEnv :=
  { connectR := .ok (), fetchR := .ok exNewRemoteData, countR := .ok 0,
    webRowsR := .ok ([], []), applyR := .ok (), existsInDb := fun _ => false,
    commitR := .error "commit failed", now := 5 }

instance {ε α : Type} [DecidableEq ε] [DecidableEq α] : DecidableEq (Except ε α) := fun a b =>
  match a, b with
  | .ok x, .ok y =>
      if h : x = y then isTrue (by rw [h]) else isFalse (fun hc => h (Except.ok.inj hc))
  | .error x, .error y =>
      if h : x = y then isTrue (by rw [h]) else isFalse (fun hc => h (Except.error.inj hc))
  | .ok _, .error _ => isFalse (fun hc => Except.noConfusion hc)
  | .error _, .ok _ => isFalse (fun hc => Except.noConfusion hc)

/-- C1 evidence: `syncRemoteToWeb` persists the new snapshot before
issuing `COMMIT`.  In the cycle where the apply succeeds but the `COMMIT`
statement fails, the cycle fails and the transaction is rolled back, yet
the stored `remote` snapshot has already been rewritten from the old data
to the fetched data — the event trace shows the snapshot save strictly
before the commit attempt. -/
theorem syncRemoteToWeb_saves_before_commit :
    (syncRemoteToWeb exC1Env exC1State).2.2 = .error "commit failed" ∧
    storeLoad exC1State.store "remote" = exOldRemoteData ∧
    storeLoad (syncRemoteToWeb exC1Env exC1State).1.store "remote" = exNewRemoteData ∧
    exNewRemoteData ≠ exOldRemoteData ∧
    (syncRemoteToWeb exC1Env exC1State).2.1 =
      [DbEvent.beginTx,
       DbEvent.applyStmts
         (syncToWebDB exC1Env.existsInDb (rwDiffData exOldRemoteData exNewRemoteData)),
       DbEvent.saveSnap "remote", DbEvent.commitTx, DbEvent.rollbackTx] := by
  refine ⟨?_, ?_, ?_, ?_, ?_⟩ <;> decide

/-- The pre-diff snapshot resolution never issues any data statement:
its trace holds at most the bootstrap count query and snapshot saves. -/
theorem rwResolveOld_no_apply (env : SyncEnv) (st : RwState) :
    ∀ stmts, DbEvent.applyStmts stmts ∉ (rwResolveOld env st).2.1 := by
  intro stmts
  simp only [rwResolveOld]
  repeat' split
  all_goals simp

/-- C2 (amended): in every cycle whose total changed-row count is zero,
the apply step is skipped — the destination receives no data statements
at any point of the cycle — and the post-diff snapshot save is skipped,
so the snapshot store is exactly what the pre-diff snapshot resolution
left (untouched, with a destination trace of exactly `BEGIN`/`COMMIT`,
whenever a previous snapshot exists); a transaction is nevertheless still
opened, the trace being `BEGIN`, then the bootstrap resolution's events
(empty when a previous snapshot exists; a count query and possibly
baseline snapshot saves otherwise), then `COMMIT`. -/
theorem syncRemoteToWeb_noop_cycle (env : SyncEnv) (st st1 : RwState)
    (newData oldS : Snapshot) (evs1 : List DbEvent)
    (hc : env.connectR = .ok ()) (hf : env.fetchR = .ok newData)
    (hres : rwResolveOld env (rwStart st) = (st1, evs1, .ok oldS))
    (hdiff : diffTotal (rwDiffData oldS newData) = 0)
    (hcommit : env.commitR = .ok ()) :
    (syncRemoteToWeb env st).2.2 = .ok () ∧
    (syncRemoteToWeb env st).2.1 = (DbEvent.beginTx :: evs1) ++ [DbEvent.commitTx] ∧
    (syncRemoteToWeb env st).1.store = st1.store ∧
    (∀ stmts, DbEvent.applyStmts stmts ∉ (syncRemoteToWeb env st).2.1) ∧
    (¬ (storeLoad st.store "remote" = []) → st1.store = st.store ∧ evs1 = []) := by
  have hnoapply := rwResolveOld_no_apply env (rwStart st)
  rw [hres] at hnoapply
  have hrun : syncRemoteToWeb env st =
      rwSuccess env st1 ((DbEvent.beginTx :: evs1) ++ [DbEvent.commitTx]) := by
    unfold syncRemoteToWeb
    rw [hc, hf, hres]
    dsimp only
    rw [if_pos hdiff, hcommit]
  refine ⟨?_, ?_, ?_, ?_, ?_⟩
  · rw [hrun]
    rfl
  · rw [hrun]
    rfl
  · rw [hrun]
    rfl
  · intro stmts hmem
    rw [hrun] at hmem
    simp only [rwSuccess, List.cons_append, List.mem_cons, List.mem_append,
      List.mem_singleton] at hmem
    rcases hmem with h | h | h
    · exact absurd h (by simp)
    · exact hnoapply stmts h
    · exact absurd h (by simp)
  · intro hl
    have hl' : ¬ (storeLoad (rwStart st).store "remote" = []) := hl
    rw [rwResolveOld, if_neg hl'] at hres
    have h1 : rwStart st = st1 := congrArg Prod.fst hres
    have h2 : ([] : List DbEvent) = evs1 := congrArg (fun p => p.2.1) hres
    exact ⟨by rw [← h1]; rfl, h2.symm⟩

/-- I/O outcomes of a no-op cycle: the fetched data equals the persisted
snapshot and the commit succeeds. -/
def exC2Env : SyncEnv :=
  { connectR := .ok (), fetchR := .ok exOldRemoteData, countR := .ok 0,
    webRowsR := .ok ([], []), applyR := .ok (), existsInDb := fun _ => false,
    commitR := .ok (), now := 6 }

/-- C2 counterexample: in a cycle whose total changed-row count is zero,
the claim says no transaction is opened and the destination receives zero
statements; in fact `syncRemoteToWeb` has already issued `BEGIN` before
the no-op check, so the destination still receives a `BEGIN`/`COMMIT`
pair. -/
theorem syncRemoteToWeb_noop_opens_transaction_counterexample :
    diffTotal (rwDiffData (storeLoad exC1State.store "remote") exOldRemoteData) = 0 ∧
    (syncRemoteToWeb exC2Env exC1State).2.1 = [DbEvent.beginTx, DbEvent.commitTx] ∧
    DbEvent.beginTx ∈ (syncRemoteToWeb exC2Env exC1State).2.1 := by
  refine ⟨?_, ?_, ?_⟩ <;> decide

set_option synthInstance.maxSize 512 in
/-- C2 witness: the amended no-op theorem applied to the concrete no-op
cycle (a previous snapshot exists, so the resolution trace is empty). -/
theorem syncRemoteToWeb_noop_cycle_witness :
    (syncRemoteToWeb exC2Env exC1State).2.2 = .ok () ∧
    (syncRemoteToWeb exC2Env exC1State).2.1 =
      (DbEvent.beginTx :: ([] : List DbEvent)) ++ [DbEvent.commitTx] ∧
    (syncRemoteToWeb exC2Env exC1State).1.store = (rwStart exC1State).store ∧
    (∀ stmts, DbEvent.applyStmts stmts ∉ (syncRemoteToWeb exC2Env exC1State).2.1) ∧
    (¬ (storeLoad exC1State.store "remote" = []) →
      (rwStart exC1State).store = exC1State.store ∧ ([] : List DbEvent) = []) :=
  syncRemoteToWeb_noop_cycle exC2Env exC1State (rwStart exC1State)
    exOldRemoteData exOldRemoteData [] rfl rfl (by decide) (by decide) rfl

/-- The mutable state `syncBetweenDatabases` touches: the snapshot store
and the per-source statistics map. -/
structure SbdState where
  store : JMap String SnapStore
  stats : JMap String Stats
deriving Repr

/-- Read a source's statistics record, defaulting to the zero-initialised
record (the source initialises missing entries before incrementing). -/
def statsFor (m : JMap String Stats) (k : String) : Stats :=
  (mapGet? m k).getD emptyStats

/-- The result object returned by `syncBetweenDatabases` (durations are
real-time quantities and are left out of the message). -/
structure SyncResult where
  success : Bool
  message : String
  totalChanges : Option Nat
  error : Option String
deriving DecidableEq, Repr

/-- The per-table key field of `syncBetweenDatabases`: `code` for
`rrc_clients`, `id` otherwise. -/
def tableKeyField (t : String) : String := if t = "rrc_clients" then "code" else "id"

/-- The per-table diffs of `syncBetweenDatabases`, in configuration
order, with absent tables read as empty. -/
def sbdDiffs (tables : List String) (oldS newS : Snapshot) : List (String × DiffResult) :=
  tables.map (fun t =>
    (t, computeDiff ((mapGet? oldS t).getD []) ((mapGet? newS t).getD []) (tableKeyField t)))

/-- The `totalChanges` accumulation over the per-table diffs. -/
def sbdTotal (ds : List (String × DiffResult)) : Nat :=
  ds.foldl (fun n d =>
    n + (d.2.inserts.length + d.2.updates.length + d.2.deletes.length)) 0

/-- Package the per-table diffs as the object consumed by `syncToWebDB`
(absent tables behave as empty diffs under the optional chaining of the
source). -/
def toWebDiffData (ds : List (String × DiffResult)) : WebDiffData :=
  { rrc_clients := (mapGet? ds "rrc_clients").getD { inserts := [], updates := [], deletes := [] },
    acc_users := (mapGet? ds "acc_users").getD { inserts := [], updates := [], deletes := [] } }

/-- The old-snapshot resolution of `syncBetweenDatabases` (target is
`web` in this branch): load the persisted snapshot of `sourceKey`; when
it is empty, count the destination's `rrc_clients` rows and either
bootstrap a baseline from the destination (saved under `"web"` by
`createSnapshotFromWebDB` and under `sourceKey` by the orchestrator) or
start from the empty snapshot with one entry per configured table. -/
def sbdResolveOld (env : SyncEnv) (sourceKey : String) (tables : List String)
    (st : SbdState) : SbdState × List DbEvent × Except String Snapshot :=
  let loaded := storeLoad st.store sourceKey
  if loaded = [] then
    match env.countR with
    | .error e => (st, [DbEvent.countQuery], .error e)
    | .ok n =>
      if n > 0 then
        match env.webRowsR with
        | .error e => (st, [DbEvent.countQuery], .error e)
        | .ok wr =>
          let webData : Snapshot := [("rrc_clients", wr.1), ("acc_users", wr.2)]
          ({ st with store := storeSave (storeSave st.store "web" webData) sourceKey webData },
           [DbEvent.countQuery, DbEvent.saveSnap "web", DbEvent.saveSnap sourceKey],
           .ok webData)
      else
        (st, [DbEvent.countQuery], .ok (tables.map (fun t => (t, []))))
  else (st, [], .ok loaded)

/-- The inner `try` of `syncBetweenDatabases`, from just after `BEGIN` up
to and including the `COMMIT` attempt: resolve the old snapshot, diff the
configured tables, and either commit directly (no-op cycle) or apply the
diff, persist the new snapshot of `sourceKey` and then commit.  The
successful outcome carries `totalChanges`; the failing outcome carries
the error that the inner `catch` will rethrow after rolling back. -/
def sbdInner (env : SyncEnv) (sourceKey : String) (tables : List String)
    (sourceData : Snapshot) (st : SbdState) :
    (SbdState × List DbEvent × Nat) ⊕ (SbdState × List DbEvent × String) :=
  match sbdResolveOld env sourceKey tables st with
  | (st1, evs1, .error e) => .inr (st1, evs1, e)
  | (st1, evs1, .ok oldS) =>
    let ds := sbdDiffs tables oldS sourceData
    let n := sbdTotal ds
    if n = 0 then
      match env.commitR with
      | .error e => .inr (st1, evs1 ++ [DbEvent.commitTx], e)
      | .ok _ => .inl (st1, evs1 ++ [DbEvent.commitTx], n)
    else
      match env.applyR with
      | .error e => .inr (st1, evs1 ++
          [DbEvent.applyStmts (syncToWebDB env.existsInDb (toWebDiffData ds))], e)
      | .ok _ =>
        let st2 : SbdState := { st1 with store := storeSave st1.store sourceKey sourceData }
        let evs2 := evs1 ++
          [DbEvent.applyStmts (syncToWebDB env.existsInDb (toWebDiffData ds)),
           DbEvent.saveSnap sourceKey]
        match env.commitR with
        | .error e => .inr (st2, evs2 ++ [DbEvent.commitTx], e)
        | .ok _ => .inl (st2, evs2 ++ [DbEvent.commitTx], n)

/-- The outer `try` of `syncBetweenDatabases`: reject non-`web` targets,
fetch the source data (only the `remote` fetch is implemented), connect
to the target, and run the transaction body; an inner failure appends the
`ROLLBACK` of the inner `catch`. -/
def sbdTry (env : SyncEnv) (sourceKey targetKey : String) (tables : List String)
    (st : SbdState) :
    (SbdState × List DbEvent × Nat) ⊕ (SbdState × List DbEvent × String) :=
  if targetKey = "web" then
    match (if sourceKey = "remote" then env.fetchR
           else .error ("Fetching from " ++ sourceKey ++ " is not implemented yet.")) with
    | .error e => .inr (st, [], e)
    | .ok sourceData =>
      match env.connectR with
      | .error e => .inr (st, [], e)
      | .ok _ =>
        match sbdInner env sourceKey tables sourceData st with
        | .inl (st1, evs, n) => .inl (st1, DbEvent.beginTx :: evs, n)
        | .inr (st1, evs, e) =>
            .inr (st1, (DbEvent.beginTx :: evs) ++ [DbEvent.rollbackTx], e)
  else
    .inr (st, [], "Syncing to " ++ targetKey ++ " is not supported yet.")

/-- The statistics prologue of `syncBetweenDatabases`: initialise the
source's statistics entry if missing and increment `totalSyncs`. -/
def sbdStart (st : SbdState) (sourceKey : String) : SbdState :=
  let s0 := statsFor st.stats sourceKey
  let s1 : Stats := { s0 with totalSyncs := s0.totalSyncs + 1 }
  { st with stats := mapSet st.stats sourceKey s1 }

/-- `syncBetweenDatabases` from `src/services/sync.js`: initialise the
source's statistics entry if missing, increment `totalSyncs`, run the
outer `try`, and translate the outcome into the returned result object —
a success updates the success statistics and returns `success: true` with
`totalChanges`; any caught error updates the failure statistics
(`failedSyncs`, `lastError`, `lastErrorTime`) and returns `success:
false` carrying the error message.  The function never throws: both
branches return a `SyncResult`. -/
def syncBetweenDatabases (env : SyncEnv) (sourceKey targetKey : String)
    (tables : List String) (st : SbdState) :
    SbdState × List DbEvent × SyncResult :=
  match sbdTry env sourceKey targetKey tables (sbdStart st sourceKey) with
  | .inl (st1, evs, n) =>
      let s := statsFor st1.stats sourceKey
      let s2 : Stats := { s with successfulSyncs := s.successfulSyncs + 1,
                                 lastSuccessTime := some env.now,
                                 lastSyncTime := some env.now }
      ({ st1 with stats := mapSet st1.stats sourceKey s2 },
       evs,
       { success := true, message := "Sync completed successfully",
         totalChanges := some n, error := none })
  | .inr (st1, evs, e) =>
      let s := statsFor st1.stats sourceKey
      let s2 : Stats := { s with failedSyncs := s.failedSyncs + 1,
                                 lastErrorTime := some env.now,
                                 lastError := some e,
                                 lastSyncTime := some env.now }
      ({ st1 with stats := mapSet st1.stats sourceKey s2 },
       evs,
       { success := false, message := "Sync failed: " ++ e,
         totalChanges := none, error := some e })

/-- The state carried by either outcome of the inner/outer `try`. -/
def sbdOutState :
    (SbdState × List DbEvent × Nat) ⊕ (SbdState × List DbEvent × String) → SbdState
  | .inl (st, _, _) => st
  | .inr (st, _, _) => st

theorem sbdResolveOld_stats (env : SyncEnv) (k : String) (tables : List String)
    (st : SbdState) : (sbdResolveOld env k tables st).1.stats = st.stats := by
  simp only [sbdResolveOld]
  repeat' split
  all_goals rfl

theorem sbdInner_stats (env : SyncEnv) (k : String) (tables : List String)
    (sourceData : Snapshot) (st : SbdState) :
    (sbdOutState (sbdInner env k tables sourceData st)).stats = st.stats := by
  have hres := sbdResolveOld_stats env k tables st
  simp only [sbdInner]
  rcases h : sbdResolveOld env k tables st with ⟨st1, evs1, exc⟩
  rw [h] at hres
  cases exc with
  | error e => simpa [sbdOutState] using hres
  | ok oldS =>
    simp only []
    by_cases hn : sbdTotal (sbdDiffs tables oldS sourceData) = 0
    · simp only [if_pos hn]
      cases env.commitR <;> simpa [sbdOutState] using hres
    · simp only [if_neg hn]
      cases env.applyR with
      | error e => simpa [sbdOutState] using hres
      | ok a =>
        cases env.commitR <;> simpa [sbdOutState] using hres

theorem sbdTry_stats (env : SyncEnv) (sourceKey targetKey : String)
    (tables : List String) (st : SbdState) :
    (sbdOutState (sbdTry env sourceKey targetKey tables st)).stats = st.stats := by
  simp only [sbdTry]
  by_cases ht : targetKey = "web"
  · simp only [if_pos ht]
    cases hfetch : (if sourceKey = "remote" then env.fetchR
        else Except.error ("Fetching from " ++ sourceKey ++ " is not implemented yet.")) with
    | error e => rfl
    | ok sourceData =>
      cases env.connectR with
      | error e => rfl
      | ok a =>
        have h := sbdInner_stats env sourceKey tables sourceData st
        dsimp only
        rcases hin : sbdInner env sourceKey tables sourceData st with ⟨st1, evs, n⟩ | ⟨st1, evs, e⟩
        · rw [hin] at h
          simpa [sbdOutState] using h
        · rw [hin] at h
          simpa [sbdOutState] using h
  · simp only [if_neg ht]
    rfl

theorem statsFor_set_self (m : JMap String Stats) (k : String) (s : Stats) :
    statsFor (mapSet m k s) k = s := by
  unfold statsFor
  rw [mapGet?_set_self]
  rfl

theorem sbdTry_rollback (env : SyncEnv) (sourceKey targetKey : String)
    (tables : List String) (st : SbdState) :
    ∀ st1 evs e, sbdTry env sourceKey targetKey tables st = .inr (st1, evs, e) →
      DbEvent.beginTx ∈ evs → DbEvent.rollbackTx ∈ evs := by
  intro st1 evs e heq hmem
  simp only [sbdTry] at heq
  by_cases ht : targetKey = "web"
  · rw [if_pos ht] at heq
    cases hfetch : (if sourceKey = "remote" then env.fetchR
        else Except.error ("Fetching from " ++ sourceKey ++ " is not implemented yet.")) with
    | error e2 =>
      rw [hfetch] at heq
      simp only [Sum.inr.injEq, Prod.mk.injEq] at heq
      obtain ⟨-, h2, -⟩ := heq
      rw [← h2] at hmem
      simp at hmem
    | ok sourceData =>
      rw [hfetch] at heq
      cases hconn : env.connectR with
      | error e2 =>
        rw [hconn] at heq
        simp only [Sum.inr.injEq, Prod.mk.injEq] at heq
        obtain ⟨-, h2, -⟩ := heq
        rw [← h2] at hmem
        simp at hmem
      | ok a =>
        rw [hconn] at heq
        dsimp only at heq
        rcases hin : sbdInner env sourceKey tables sourceData st with
          ⟨st2, evs2, n⟩ | ⟨st2, evs2, e2⟩
        · rw [hin] at heq
          simp at heq
        · rw [hin] at heq
          simp only [Sum.inr.injEq, Prod.mk.injEq] at heq
          obtain ⟨-, h2, -⟩ := heq
          rw [← h2]
          simp
  · rw [if_neg ht] at heq
    simp only [Sum.inr.injEq, Prod.mk.injEq] at heq
    obtain ⟨-, h2, -⟩ := heq
    rw [← h2] at hmem
    simp at hmem

/-- C10: `syncBetweenDatabases` never throws — it is a total function
returning a result object.  On any error (unsupported target, fetch,
connect, bootstrap, apply or commit) it returns `success: false` with the
error message, increments the source's `failedSyncs`, records `lastError`
and `lastErrorTime`, and has rolled back any transaction it opened; a
successful run returns `success: true` carrying the cycle's total change
count and increments `successfulSyncs`. -/
theorem syncBetweenDatabases_error_handling (env : SyncEnv)
    (sourceKey targetKey : String) (tables : List String) (st : SbdState) :
    ((syncBetweenDatabases env sourceKey targetKey tables st).2.2.success = false →
       ∃ e,
         (syncBetweenDatabases env sourceKey targetKey tables st).2.2.error = some e ∧
         (syncBetweenDatabases env sourceKey targetKey tables st).2.2.message =
           "Sync failed: " ++ e ∧
         (syncBetweenDatabases env sourceKey targetKey tables st).2.2.totalChanges = none ∧
         (statsFor (syncBetweenDatabases env sourceKey targetKey tables st).1.stats
           sourceKey).failedSyncs = (statsFor st.stats sourceKey).failedSyncs + 1 ∧
         (statsFor (syncBetweenDatabases env sourceKey targetKey tables st).1.stats
           sourceKey).lastError = some e ∧
         (statsFor (syncBetweenDatabases env sourceKey targetKey tables st).1.stats
           sourceKey).lastErrorTime = some env.now ∧
         (DbEvent.beginTx ∈ (syncBetweenDatabases env sourceKey targetKey tables st).2.1 →
           DbEvent.rollbackTx ∈ (syncBetweenDatabases env sourceKey targetKey tables st).2.1)) ∧
    ((syncBetweenDatabases env sourceKey targetKey tables st).2.2.success = true →
       (syncBetweenDatabases env sourceKey targetKey tables st).2.2.error = none ∧
       (∃ stI evsI n,
         sbdTry env sourceKey targetKey tables (sbdStart st sourceKey) = .inl (stI, evsI, n) ∧
         (syncBetweenDatabases env sourceKey targetKey tables st).2.2.totalChanges = some n) ∧
       (statsFor (syncBetweenDatabases env sourceKey targetKey tables st).1.stats
         sourceKey).successfulSyncs = (statsFor st.stats sourceKey).successfulSyncs + 1 ∧
       (statsFor (syncBetweenDatabases env sourceKey targetKey tables st).1.stats
         sourceKey).lastSuccessTime = some env.now) := by
  have hstats := sbdTry_stats env sourceKey targetKey tables (sbdStart st sourceKey)
  have hroll := sbdTry_rollback env sourceKey targetKey tables (sbdStart st sourceKey)
  have hbase : statsFor (sbdStart st sourceKey).stats sourceKey =
      { statsFor st.stats sourceKey with
        totalSyncs := (statsFor st.stats sourceKey).totalSyncs + 1 } := by
    simp only [sbdStart]
    rw [statsFor_set_self]
  simp only [syncBetweenDatabases]
  rcases htry : sbdTry env sourceKey targetKey tables (sbdStart st sourceKey) with
    ⟨st1, evs, n⟩ | ⟨st1, evs, e⟩
  · rw [htry] at hstats
    simp only [sbdOutState] at hstats
    have hS : statsFor st1.stats sourceKey =
        { statsFor st.stats sourceKey with
          totalSyncs := (statsFor st.stats sourceKey).totalSyncs + 1 } := by
      rw [hstats, hbase]
    dsimp only
    constructor
    · intro hfalse
      exact absurd hfalse (by simp)
    · intro _
      refine ⟨rfl, ⟨st1, evs, n, rfl, rfl⟩, ?_, ?_⟩
      · rw [statsFor_set_self, hS]
      · rw [statsFor_set_self]
  · rw [htry] at hstats
    simp only [sbdOutState] at hstats
    have hS : statsFor st1.stats sourceKey =
        { statsFor st.stats sourceKey with
          totalSyncs := (statsFor st.stats sourceKey).totalSyncs + 1 } := by
      rw [hstats, hbase]
    dsimp only
    constructor
    · intro _
      refine ⟨e, rfl, rfl, rfl, ?_, ?_, ?_, hroll st1 evs e htry⟩
      · rw [statsFor_set_self, hS]
      · rw [statsFor_set_self]
      · rw [statsFor_set_self]
    · intro htrue
      exact absurd htrue (by simp)

/-- Initial state of the C10 witness run: a valid persisted `remote`
snapshot and no statistics entries yet. -/
def exC10State : SbdState := { store := exC1Store, stats := [] }

/-- C10 witness: the error-handling theorem applied to a concrete cycle
whose `COMMIT` fails, discharging the failure hypothesis by evaluation. -/
theorem syncBetweenDatabases_error_handling_witness :
    ∃ e,
      (syncBetweenDatabases exC1Env "remote" "web" ["rrc_clients", "acc_users"]
        exC10State).2.2.error = some e ∧
      (syncBetweenDatabases exC1Env "remote" "web" ["rrc_clients", "acc_users"]
        exC10State).2.2.message = "Sync failed: " ++ e ∧
      (syncBetweenDatabases exC1Env "remote" "web" ["rrc_clients", "acc_users"]
        exC10State).2.2.totalChanges = none ∧
      (statsFor (syncBetweenDatabases exC1Env "remote" "web" ["rrc_clients", "acc_users"]
        exC10State).1.stats "remote").failedSyncs =
        (statsFor exC10State.stats "remote").failedSyncs + 1 ∧
      (statsFor (syncBetweenDatabases exC1Env "remote" "web" ["rrc_clients", "acc_users"]
        exC10State).1.stats "remote").lastError = some e ∧
      (statsFor (syncBetweenDatabases exC1Env "remote" "web" ["rrc_clients", "acc_users"]
        exC10State).1.stats "remote").lastErrorTime = some exC1Env.now ∧
      (DbEvent.beginTx ∈ (syncBetweenDatabases exC1Env "remote" "web"
          ["rrc_clients", "acc_users"] exC10State).2.1 →
        DbEvent.rollbackTx ∈ (syncBetweenDatabases exC1Env "remote" "web"
          ["rrc_clients", "acc_users"] exC10State).2.1) :=
  (syncBetweenDatabases_error_handling exC1Env "remote" "web"
    ["rrc_clients", "acc_users"] exC10State).1 (by decide)
